import Mathlib

/-!
# go-workerpool: a worker pool over two buffered channels

Shallow embedding of `main.go`.  The sequential parts (`ProcessTask`,
`NewWorkerPool`, the construction of a `Result`) are plain functions.  The
concurrent part (`WorkerPool.ProcessTasks`, `WorkerPool.worker`, the anonymous
completion watcher) is a transition system: a `State` holds the two channels,
the wait group, the program counter of the calling goroutine and of every
worker, and `step` fires one atomic statement of one goroutine.  A schedule is
a list of `Action`s; every interleaving of the goroutines, every outcome of the
random draws, and every moment at which the context may fire is a schedule.
-/

namespace WorkerPoolModel

/-! ## Data model -/

/-- Go `type Task struct { ID int; Data string }`. -/
structure Task where
  ID : Int
  Data : String
deriving DecidableEq, Repr

/-- Go `type Result struct { TaskID int; Output string; Error error; WorkerID int }`.
An `error` built by `fmt.Errorf` without `%w` is its message; `none` is `nil`. -/
structure Result where
  TaskID : Int
  Output : String
  Error : Option String
  WorkerID : Int
deriving DecidableEq, Repr

/-- Go `type WorkerPool struct { Count int }`. -/
structure WorkerPool where
  Count : Int
deriving DecidableEq, Repr

/-- Go `NewWorkerPool`: stores the number of workers, whatever it is. -/
def NewWorkerPool (numWorkers : Int) : WorkerPool :=
  { Count := numWorkers }

/-- The value of `ctx.Err()` once the context has fired. -/
inductive CtxErr where
  | Canceled
  | DeadlineExceeded
deriving DecidableEq, Repr

/-- The text `%v` prints for `ctx.Err()`. -/
def CtxErr.Error : CtxErr → String
  | .Canceled => "context canceled"
  | .DeadlineExceeded => "context deadline exceeded"

/-- Which case of the `select` in `ProcessTask` ran.  `timer r` is
`<-time.After(processingTime)` with `r` the value of `rand.Intn(10)`;
`done e` is `<-ctx.Done()` with `e` the value of `ctx.Err()`. -/
inductive Select where
  | timer (r : Fin 10)
  | done (e : CtxErr)
deriving DecidableEq, Repr

/-- Two's complement wrap-around of a Go `int` of 64 bits. -/
def wrapInt64 (x : Int) : Int :=
  (x + 2 ^ 63) % 2 ^ 64 - 2 ^ 63

/-- Go `ProcessTask`, as a function of the case of the `select` that ran.
Returns `(output, err)`. -/
def ProcessTask (sel : Select) (task : Task) : String × Option String :=
  match sel with
  | .timer r =>
    if r.val = 0 then
      ("", some ("processing failed for task " ++ toString task.ID))
    else
      ("processed-" ++ task.Data ++ "-result-" ++ toString (wrapInt64 (task.ID * 2)), none)
  | .done e =>
    ("", some ("for some reason, task " ++ toString task.ID ++ "  was canceled: " ++ e.Error))

/-! ## Goroutines, channels and the wait group -/

/-- Program counter of one `worker` goroutine. -/
inductive WorkerPc where
  /-- At `for task := range taskChan`. -/
  | idle
  /-- A task was received and `ProcessTask` was called; the `select` is not reached yet. -/
  | called (task : Task)
  /-- In the `select` of `ProcessTask`, waiting for a case to run. -/
  | blocked (task : Task)
  /-- `ProcessTask` returned `(output, err)`; at `resultChan <- Result{...}`. -/
  | returned (task : Task) (output : String) (err : Option String)
  /-- The range loop ended and the deferred `wg.Done()` ran. -/
  | exited
deriving DecidableEq, Repr

/-- One `worker` goroutine: its `workerID` argument and its program counter. -/
structure Worker where
  workerID : Int
  pc : WorkerPc
deriving DecidableEq, Repr

/-- Program counter of the goroutine that runs `ProcessTasks`. -/
inductive MainPc where
  /-- At the head of `for i := 0; i < wp.Count; i++`. -/
  | launch (i : Nat)
  /-- In `for _, task := range tasks`, with `rest` still to be sent;
  `close(taskChan)` follows when `rest` is empty. -/
  | submit (rest : List Task)
  /-- At `go func() { wg.Wait(); close(resultChan) }()`. -/
  | goWatcher
  /-- In `for result := range resultChan`. -/
  | collect
  /-- After `return results, nil`. -/
  | returned (results : List Result) (err : Option String)
deriving DecidableEq, Repr

/-- What the goroutines have done so far.  The program keeps no such record;
the model does, so that statements can speak of who received and processed what. -/
inductive Event where
  /-- Worker `w` received `task` from `taskChan`. -/
  | received (w : Int) (task : Task)
  /-- The call `ProcessTask(ctx, task, &taskWg)` of worker `w` returned `(output, err)`. -/
  | processed (w : Int) (task : Task) (output : String) (err : Option String)
deriving DecidableEq, Repr

/-- The state of one call of `ProcessTasks`. -/
structure State where
  /-- The receiver `wp`. -/
  wp : WorkerPool
  /-- The argument `tasks`; `len(tasks)` is the capacity of both channels. -/
  tasks : List Task
  /-- The context: `none` while it has not fired, `some e` once `ctx.Err() = e`. -/
  ctx : Option CtxErr
  main : MainPc
  workers : List Worker
  /-- The counter of `wg`. -/
  wg : Int
  /-- The buffer of `taskChan`, oldest first. -/
  taskChan : List Task
  taskClosed : Bool
  /-- The completion watcher has been started. -/
  watcher : Bool
  /-- The buffer of `resultChan`, oldest first. -/
  resultChan : List Result
  resultClosed : Bool
  /-- The local slice `results`. -/
  results : List Result
  log : List Event
  /-- A goroutine panicked (send on a closed channel, negative wait-group counter). -/
  panicked : Bool
deriving DecidableEq, Repr

/-- One atomic statement of one goroutine, or the environment firing the context. -/
inductive Action where
  /-- The context is cancelled or its deadline passes. -/
  | cancel (e : CtxErr)
  /-- Main: one test of `i < wp.Count`, and `wg.Add(1); go wp.worker(...)` when it holds. -/
  | spawn
  /-- Main: `taskChan <- task` for the next task, or `close(taskChan)` after the last one. -/
  | push
  /-- Main: `go func() { ... }()`. -/
  | startWatcher
  /-- Watcher: `wg.Wait()` returns and `close(resultChan)` runs. -/
  | watch
  /-- Main: one iteration of `for result := range resultChan`. -/
  | collect
  /-- Main: the range loop over the closed, drained `resultChan` ends;
  `sortResults(results)` leaves `out` in the slice; `return results, nil`. -/
  | finish (out : List Result)
  /-- Worker `w`: `range taskChan` yields a task, or ends on the closed, drained channel. -/
  | recv (w : Nat)
  /-- Worker `w`: `ProcessTask` prints, draws its processing time and reaches
  its `select`. -/
  | enter (w : Nat)
  /-- Worker `w`, in its `select`: the `<-time.After(processingTime)` case
  runs; `r` is `rand.Intn(10)`.  The model keeps no clock, so the timer may be
  ready at any moment, also when the context has fired: `select` gives neither
  case priority and picks either of two ready ones. -/
  | timer (w : Nat) (r : Fin 10)
  /-- Worker `w`, in its `select`: the `<-ctx.Done()` case runs; it is ready
  once the context has fired. -/
  | done (w : Nat)
  /-- Worker `w`: `resultChan <- Result{...}`. -/
  | send (w : Nat)
deriving DecidableEq, Repr

/-! ## Sorting -/

/-- The `less` function handed to `sort.Slice` by `sortResults`. -/
def less (a b : Result) : Prop :=
  a.TaskID < b.TaskID

instance (a b : Result) : Decidable (less a b) :=
  inferInstanceAs (Decidable (a.TaskID < b.TaskID))

/-- What `sort.Slice(results, less)` guarantees about the slice it leaves:
a rearrangement of the elements in which no later element is `less` than an
earlier one.  `sort.Slice` is not stable, so elements that compare equal may
end in any order. -/
def SortedBy (input out : List Result) : Prop :=
  out.Perm input ∧ out.Pairwise (fun a b => ¬ less b a)

instance (input out : List Result) : Decidable (SortedBy input out) :=
  inferInstanceAs (Decidable (_ ∧ _))

/-- Go `sortResults`: one outcome of `sort.Slice`, by insertion. -/
def sortResults (results : List Result) : List Result :=
  results.insertionSort (fun a b => ¬ less b a)

instance : IsTotal Result (fun a b => ¬ less b a) :=
  ⟨fun a b => by simp only [less, not_lt]; exact le_total a.TaskID b.TaskID⟩

instance : IsTrans Result (fun a b => ¬ less b a) :=
  ⟨fun a b c hab hbc => by
    simp only [less, not_lt] at hab hbc ⊢
    exact le_trans hab hbc⟩

/-! ## One step, a run, the call -/

/-- The initial state of `wp.ProcessTasks(ctx, tasks)`: both channels made and empty. -/
def init (wp : WorkerPool) (ctx : Option CtxErr) (tasks : List Task) : State :=
  { wp := wp, tasks := tasks, ctx := ctx, main := .launch 0, workers := [], wg := 0,
    taskChan := [], taskClosed := false, watcher := false, resultChan := [],
    resultClosed := false, results := [], log := [], panicked := false }

/-- The `Result` literal built by `worker`. -/
def mkResult (workerID : Int) (task : Task) (output : String) (err : Option String) : Result :=
  { TaskID := task.ID, Output := output, Error := err, WorkerID := workerID }

/-- Worker `w` leaves `ProcessTask` through the case `sel` of the `select`. -/
def finishCall (s : State) (w : Nat) (wk : Worker) (task : Task) (sel : Select) : State :=
  let r := ProcessTask sel task
  { s with
    workers := s.workers.set w { wk with pc := .returned task r.1 r.2 },
    log := s.log ++ [.processed wk.workerID task r.1 r.2] }

/-- The body of Go `WorkerPool.ProcessTasks`, one statement at a time: a step
of the calling goroutine or of the watcher it starts. -/
def stepMain (s : State) : Action → Option State
  | .spawn =>
    match s.main with
    | .launch i =>
      if (i : Int) < s.wp.Count then
        some { s with
          wg := s.wg + 1,
          workers := s.workers ++ [{ workerID := (i : Int), pc := .idle }],
          main := .launch (i + 1) }
      else
        some { s with main := .submit s.tasks }
    | _ => none
  | .push =>
    match s.main with
    | .submit (task :: rest) =>
      if s.taskChan.length < s.tasks.length then
        some { s with taskChan := s.taskChan ++ [task], main := .submit rest }
      else none
    | .submit [] => some { s with taskClosed := true, main := .goWatcher }
    | _ => none
  | .startWatcher =>
    match s.main with
    | .goWatcher => some { s with watcher := true, main := .collect }
    | _ => none
  | .watch =>
    if s.watcher ∧ ¬ s.resultClosed ∧ s.wg = 0 then
      some { s with resultClosed := true }
    else none
  | .collect =>
    match s.main, s.resultChan with
    | .collect, r :: rest => some { s with resultChan := rest, results := s.results ++ [r] }
    | _, _ => none
  | .finish out =>
    match s.main, s.resultChan with
    | .collect, [] =>
      if s.resultClosed ∧ SortedBy s.results out then
        some { s with main := .returned out none }
      else none
    | _, _ => none
  | _ => none

/-- Go `WorkerPool.worker`, one statement at a time: a step of worker `w`,
whose record is `wk`. -/
def worker (s : State) (w : Nat) (wk : Worker) : Action → Option State
  | .recv _ =>
    match wk.pc, s.taskChan with
    | .idle, task :: rest =>
      some { s with
        taskChan := rest,
        workers := s.workers.set w { wk with pc := .called task },
        log := s.log ++ [.received wk.workerID task] }
    | .idle, [] =>
      if s.taskClosed then
        if s.wg - 1 < 0 then some { s with panicked := true }
        else some { s with wg := s.wg - 1, workers := s.workers.set w { wk with pc := .exited } }
      else none
    | _, _ => none
  | .enter _ =>
    match wk.pc with
    | .called task =>
      some { s with workers := s.workers.set w { wk with pc := .blocked task } }
    | _ => none
  | .timer _ r =>
    match wk.pc with
    | .blocked task => some (finishCall s w wk task (.timer r))
    | _ => none
  | .done _ =>
    match wk.pc, s.ctx with
    | .blocked task, some e => some (finishCall s w wk task (.done e))
    | _, _ => none
  | .send _ =>
    match wk.pc with
    | .returned task output err =>
      if s.resultClosed then some { s with panicked := true }
      else if s.resultChan.length < s.tasks.length then
        some { s with
          resultChan := s.resultChan ++ [mkResult wk.workerID task output err],
          workers := s.workers.set w { wk with pc := .idle } }
      else none
    | _ => none
  | _ => none

/-- The worker an action belongs to, if any. -/
def Action.worker : Action → Option Nat
  | .recv w => some w
  | .enter w => some w
  | .timer w _ => some w
  | .done w => some w
  | .send w => some w
  | _ => none

/-- One step of the system; `none` when the action cannot fire in `s`
(the goroutine is elsewhere, or blocked on its channel), or after a panic. -/
def step (s : State) (a : Action) : Option State :=
  if s.panicked then none
  else
    match a with
    | .cancel e =>
      match s.ctx with
      | none => some { s with ctx := some e }
      | some _ => none
    | a =>
      match a.worker with
      | some w =>
        match s.workers[w]? with
        | some wk => worker s w wk a
        | none => none
      | none => stepMain s a

/-- Runs a schedule; `none` when one of its actions cannot fire. -/
def run (s : State) : List Action → Option State
  | [] => some s
  | a :: rest => (step s a).bind (fun s' => run s' rest)

/-- The state a schedule leads to from the start of `wp.ProcessTasks(ctx, tasks)`. -/
def execute (wp : WorkerPool) (ctx : Option CtxErr) (tasks : List Task)
    (sched : List Action) : Option State :=
  run (init wp ctx tasks) sched

/-- What `ProcessTasks` has returned in a state, if it has. -/
def State.returned (s : State) : Option (List Result × Option String) :=
  match s.main with
  | .returned results err => some (results, err)
  | _ => none

/-- Go `WorkerPool.ProcessTasks` under a schedule: the pair `(results, err)` it
returns when the schedule runs the call to its `return`, `none` when the
schedule cannot run or stops before the `return`. -/
def ProcessTasks (wp : WorkerPool) (ctx : Option CtxErr) (tasks : List Task)
    (sched : List Action) : Option (List Result × Option String) :=
  (execute wp ctx tasks sched).bind State.returned

/-- The log of the state a schedule leads to; empty when the schedule cannot run. -/
def trace (wp : WorkerPool) (ctx : Option CtxErr) (tasks : List Task)
    (sched : List Action) : List Event :=
  match execute wp ctx tasks sched with
  | some s => s.log
  | none => []

/-- The action runs the timer case of a `select`. -/
def Action.isTimer : Action → Bool
  | .timer _ _ => true
  | _ => false

/-- An action of the program itself, not of the environment. -/
def Action.internal : Action → Bool
  | .cancel _ => false
  | _ => true

/-! ## The step relation -/

/-- The transition relation of `step`, one constructor for each way a statement can run. -/
inductive Step : State → Action → State → Prop where
  | cancel (s : State) (e : CtxErr) (hp : s.panicked = false) (hc : s.ctx = none) :
      Step s (.cancel e) { s with ctx := some e }
  | spawnGo (s : State) (i : Nat) (hp : s.panicked = false) (hm : s.main = .launch i)
      (hlt : (i : Int) < s.wp.Count) :
      Step s .spawn { s with
        wg := s.wg + 1,
        workers := s.workers ++ [{ workerID := (i : Int), pc := .idle }],
        main := .launch (i + 1) }
  | spawnEnd (s : State) (i : Nat) (hp : s.panicked = false) (hm : s.main = .launch i)
      (hge : ¬ (i : Int) < s.wp.Count) :
      Step s .spawn { s with main := .submit s.tasks }
  | pushTask (s : State) (task : Task) (rest : List Task) (hp : s.panicked = false)
      (hm : s.main = .submit (task :: rest)) (hcap : s.taskChan.length < s.tasks.length) :
      Step s .push { s with taskChan := s.taskChan ++ [task], main := .submit rest }
  | pushClose (s : State) (hp : s.panicked = false) (hm : s.main = .submit []) :
      Step s .push { s with taskClosed := true, main := .goWatcher }
  | startWatcher (s : State) (hp : s.panicked = false) (hm : s.main = .goWatcher) :
      Step s .startWatcher { s with watcher := true, main := .collect }
  | watch (s : State) (hp : s.panicked = false) (hw : s.watcher = true)
      (hr : s.resultClosed = false) (hwg : s.wg = 0) :
      Step s .watch { s with resultClosed := true }
  | collect (s : State) (r : Result) (rest : List Result) (hp : s.panicked = false)
      (hm : s.main = .collect) (hr : s.resultChan = r :: rest) :
      Step s .collect { s with resultChan := rest, results := s.results ++ [r] }
  | finish (s : State) (out : List Result) (hp : s.panicked = false)
      (hm : s.main = .collect) (hr : s.resultChan = []) (hc : s.resultClosed = true)
      (hs : SortedBy s.results out) :
      Step s (.finish out) { s with main := .returned out none }
  | recvTask (s : State) (w : Nat) (wk : Worker) (task : Task) (rest : List Task)
      (hp : s.panicked = false) (hw : s.workers[w]? = some wk) (hpc : wk.pc = .idle)
      (ht : s.taskChan = task :: rest) :
      Step s (.recv w) { s with
        taskChan := rest,
        workers := s.workers.set w { wk with pc := .called task },
        log := s.log ++ [.received wk.workerID task] }
  | recvPanic (s : State) (w : Nat) (wk : Worker)
      (hp : s.panicked = false) (hw : s.workers[w]? = some wk) (hpc : wk.pc = .idle)
      (ht : s.taskChan = []) (hc : s.taskClosed = true) (hwg : s.wg - 1 < 0) :
      Step s (.recv w) { s with panicked := true }
  | recvEnd (s : State) (w : Nat) (wk : Worker)
      (hp : s.panicked = false) (hw : s.workers[w]? = some wk) (hpc : wk.pc = .idle)
      (ht : s.taskChan = []) (hc : s.taskClosed = true) (hwg : ¬ s.wg - 1 < 0) :
      Step s (.recv w) { s with
        wg := s.wg - 1, workers := s.workers.set w { wk with pc := .exited } }
  | enterBlock (s : State) (w : Nat) (wk : Worker) (task : Task)
      (hp : s.panicked = false) (hw : s.workers[w]? = some wk) (hpc : wk.pc = .called task) :
      Step s (.enter w) { s with workers := s.workers.set w { wk with pc := .blocked task } }
  | timer (s : State) (w : Nat) (wk : Worker) (task : Task) (r : Fin 10)
      (hp : s.panicked = false) (hw : s.workers[w]? = some wk) (hpc : wk.pc = .blocked task) :
      Step s (.timer w r) (finishCall s w wk task (.timer r))
  | done (s : State) (w : Nat) (wk : Worker) (task : Task) (e : CtxErr)
      (hp : s.panicked = false) (hw : s.workers[w]? = some wk) (hpc : wk.pc = .blocked task)
      (hc : s.ctx = some e) :
      Step s (.done w) (finishCall s w wk task (.done e))
  | sendPanic (s : State) (w : Nat) (wk : Worker) (task : Task) (output : String)
      (err : Option String)
      (hp : s.panicked = false) (hw : s.workers[w]? = some wk)
      (hpc : wk.pc = .returned task output err) (hc : s.resultClosed = true) :
      Step s (.send w) { s with panicked := true }
  | send (s : State) (w : Nat) (wk : Worker) (task : Task) (output : String)
      (err : Option String)
      (hp : s.panicked = false) (hw : s.workers[w]? = some wk)
      (hpc : wk.pc = .returned task output err) (hc : s.resultClosed = false)
      (hcap : s.resultChan.length < s.tasks.length) :
      Step s (.send w) { s with
        resultChan := s.resultChan ++ [mkResult wk.workerID task output err],
        workers := s.workers.set w { wk with pc := .idle } }

/-! ## Where the tasks are, and how much is left to do -/

/-- The identities of the tasks a worker has taken and not yet handed on. -/
def Worker.owns (wk : Worker) : List Int :=
  match wk.pc with
  | .called task => [task.ID]
  | .blocked task => [task.ID]
  | .returned task _ _ => [task.ID]
  | _ => []

/-- The tasks the calling goroutine has not sent yet. -/
def MainPc.unsent (tasks : List Task) : MainPc → List Task
  | .launch _ => tasks
  | .submit rest => rest
  | _ => []

/-- How far the calling goroutine is. -/
def MainPc.phase : MainPc → Nat
  | .launch _ => 0
  | .submit _ => 1
  | .goWatcher => 2
  | .collect => 3
  | .returned _ _ => 4

/-- The number of workers that have not returned. -/
def live (ws : List Worker) : Nat :=
  ws.countP (fun wk => decide (wk.pc ≠ .exited))

/-- The identities of all tasks in flight, wherever they are. -/
def State.ids (s : State) : List Int :=
  (s.main.unsent s.tasks).map Task.ID ++ s.taskChan.map Task.ID
    ++ s.workers.flatMap Worker.owns
    ++ s.resultChan.map Result.TaskID ++ s.results.map Result.TaskID

/-- The tasks the log records as received, in order. -/
def receivedTasks (log : List Event) : List Task :=
  log.filterMap (fun ev => match ev with
    | .received _ task => some task
    | _ => none)

/-- An upper bound on the steps a worker can still take, its task included. -/
def Worker.fuel (wk : Worker) : Nat :=
  match wk.pc with
  | .idle => 1
  | .called _ => 5
  | .blocked _ => 4
  | .returned _ _ _ => 3
  | .exited => 0

/-- An upper bound on the steps the calling goroutine can still take,
the steps of the tasks it has not sent yet included. -/
def MainPc.fuel (wp : WorkerPool) (tasks : List Task) : MainPc → Nat
  | .launch i => 2 * (wp.Count - (i : Int)).toNat + 4 + 6 * tasks.length
  | .submit rest => 3 + 6 * rest.length
  | .goWatcher => 2
  | .collect => 1
  | .returned _ _ => 0

/-- An upper bound on the number of steps left in a state. -/
def State.fuel (s : State) : Nat :=
  s.main.fuel s.wp s.tasks + 5 * s.taskChan.length + (s.workers.map Worker.fuel).sum
    + s.resultChan.length + (if s.resultClosed then 0 else 1)
    + (if s.ctx.isSome then 0 else 1) + (if s.panicked then 0 else 1)

/-! ## Invariants -/

/-- What holds in every state of a call `wp.ProcessTasks(ctx, tasks)`. -/
structure Invariant (wp : WorkerPool) (tasks : List Task) (s : State) : Prop where
  wp_eq : s.wp = wp
  tasks_eq : s.tasks = tasks
  no_panic : s.panicked = false
  launch_len : ∀ i, s.main = .launch i → s.workers.length = i
  closed_iff : s.taskClosed = true ↔ 2 ≤ s.main.phase
  watcher_iff : s.watcher = true ↔ 3 ≤ s.main.phase
  workers_le : (s.workers.length : Int) ≤ max wp.Count 0
  workers_ge : 1 ≤ s.main.phase → wp.Count ≤ s.workers.length
  ids : ∀ (i : Nat) (wk : Worker), s.workers[i]? = some wk → wk.workerID = i
  wg_eq : s.wg = live s.workers
  exited_imp : ∀ wk ∈ s.workers, wk.pc = .exited → s.taskClosed = true ∧ s.taskChan = []
  rclosed_imp : s.resultClosed = true → s.watcher = true ∧ ∀ wk ∈ s.workers, wk.pc = .exited
  ret_inv : ∀ out err, s.main = .returned out err →
    s.resultClosed = true ∧ s.resultChan = [] ∧ SortedBy s.results out ∧ err = none

/-- No task identity is lost or duplicated. -/
def Conserved (tasks : List Task) (s : State) : Prop :=
  ∀ x : Int, s.ids.count x = (tasks.map Task.ID).count x

/-- What the log says about the tasks and results in flight.  `ctx0` is the
context at the start of the call. -/
structure Logged (ctx0 : Option CtxErr) (tasks : List Task) (s : State) : Prop where
  ctx_fired : ∀ e, ctx0 = some e → s.ctx = some e
  src : ∀ t, t ∈ s.main.unsent s.tasks ∨ t ∈ s.taskChan → t ∈ tasks
  received_ok : ∀ (w : Int) (t : Task), Event.received w t ∈ s.log →
    t ∈ tasks ∧ 0 ≤ w ∧ w < s.workers.length
  processed_ok : ∀ (w : Int) (t : Task) (o : String) (e : Option String),
    Event.processed w t o e ∈ s.log →
      Event.received w t ∈ s.log ∧ (∃ sel, ProcessTask sel t = (o, e)) ∧
      (∀ e0, ctx0 = some e0 →
        ProcessTask (.done e0) t = (o, e) ∨ ∃ rnd, ProcessTask (.timer rnd) t = (o, e))
  called_ok : ∀ wk ∈ s.workers, ∀ t, wk.pc = .called t ∨ wk.pc = .blocked t →
    Event.received wk.workerID t ∈ s.log
  returned_ok : ∀ wk ∈ s.workers, ∀ t o e, wk.pc = .returned t o e →
    Event.processed wk.workerID t o e ∈ s.log
  chan_ok : ∀ r, r ∈ s.resultChan ∨ r ∈ s.results →
    ∃ t, Event.processed r.WorkerID t r.Output r.Error ∈ s.log ∧ r.TaskID = t.ID
  recv_count : ∀ t : Task, (receivedTasks s.log).count t + (s.main.unsent s.tasks).count t
    + s.taskChan.count t = tasks.count t

/-- Everything known of a state of the call `wp.ProcessTasks(ctx0, tasks)`. -/
structure Reach (wp : WorkerPool) (ctx0 : Option CtxErr) (tasks : List Task) (s : State) :
    Prop where
  inv : Invariant wp tasks s
  cons : Conserved tasks s
  logged : Logged ctx0 tasks s

/-! ## Vocabulary of the properties -/

/-- Every run of the call `wp.ProcessTasks(ctx, tasks)` returns: no schedule is
longer than the fuel of the initial state, and every schedule that can run
extends, by steps of the program alone, to one that reaches the `return`. -/
def AlwaysReturns (wp : WorkerPool) (ctx : Option CtxErr) (tasks : List Task) : Prop :=
  ∀ sched s, execute wp ctx tasks sched = some s →
    sched.length ≤ (init wp ctx tasks).fuel ∧
    ∃ more res, (∀ a ∈ more, a.internal = true) ∧
      ProcessTasks wp ctx tasks (sched ++ more) = some res

/-- Every call of `ProcessTask` in the log returned what the `<-ctx.Done()` case
returns under `ctx.Err() = e`. -/
def CancelledOnly (e : CtxErr) (log : List Event) : Prop :=
  ∀ (w : Int) (t : Task) (o : String) (er : Option String),
    Event.processed w t o er ∈ log → ProcessTask (.done e) t = (o, er)

/-- The part of a `Result` that does not name the worker. -/
def Result.outcome (r : Result) : Int × String × Option String :=
  (r.TaskID, r.Output, r.Error)

/-- The event is no call of `ProcessTask`, or a call that returned what `f` says. -/
def Event.agrees (f : Task → String × Option String) : Event → Prop
  | .processed _ task output err => (output, err) = f task
  | _ => True

instance (f : Task → String × Option String) : (ev : Event) → Decidable (ev.agrees f)
  | .processed _ task output err => inferInstanceAs (Decidable ((output, err) = f task))
  | .received _ _ => inferInstanceAs (Decidable True)

/-! ## Example runs -/

/-- A batch whose identities are not in ascending order. -/
def demoTasks : List Task := [⟨1, "a"⟩, ⟨0, "b"⟩]

/-- What two workers return for `demoTasks` when both calls succeed. -/
def demoOut : List Result :=
  [⟨0, "processed-b-result-0", none, 0⟩, ⟨1, "processed-a-result-2", none, 1⟩]

/-- A run of two workers on `demoTasks`: worker 1 takes task 1, worker 0 takes
task 0, both calls succeed, worker 1 sends first. -/
def demoSchedule : List Action :=
  [.spawn, .spawn, .spawn, .push, .recv 1, .push, .recv 0, .push, .enter 0, .enter 1,
   .startWatcher, .timer 1 3, .timer 0 5, .send 1, .send 0, .recv 0, .recv 1, .watch,
   .collect, .collect, .finish demoOut]

/-- What one worker returns for `demoTasks` when both calls succeed. -/
def soloOut : List Result :=
  [⟨0, "processed-b-result-0", none, 0⟩, ⟨1, "processed-a-result-2", none, 0⟩]

/-- A run of one worker on `demoTasks`, both calls succeed. -/
def soloSchedule : List Action :=
  [.spawn, .spawn, .push, .push, .push, .startWatcher, .recv 0, .enter 0, .timer 0 1, .send 0,
   .recv 0, .enter 0, .timer 0 2, .send 0, .recv 0, .watch, .collect, .collect,
   .finish soloOut]

/-- What two workers return for `demoTasks` under a context cancelled beforehand. -/
def firedOut : List Result :=
  [⟨0, "", some "for some reason, task 0  was canceled: context canceled", 0⟩,
   ⟨1, "", some "for some reason, task 1  was canceled: context canceled", 1⟩]

/-- A run of two workers on `demoTasks` under a context cancelled beforehand. -/
def firedSchedule : List Action :=
  [.spawn, .spawn, .spawn, .push, .recv 1, .push, .recv 0, .push, .enter 0, .enter 1,
   .startWatcher, .done 1, .done 0, .send 1, .send 0, .recv 0, .recv 1, .watch,
   .collect, .collect, .finish firedOut]

/-- What `mixedSchedule` returns: one processing failure, one cancellation. -/
def mixedOut : List Result :=
  [⟨0, "", some "for some reason, task 0  was canceled: context deadline exceeded", 0⟩,
   ⟨1, "", some "processing failed for task 1", 1⟩]

/-- A run of two workers on `demoTasks`: the call on task 1 draws the failure,
then the deadline passes while the call on task 0 waits. -/
def mixedSchedule : List Action :=
  [.spawn, .spawn, .spawn, .push, .recv 1, .push, .recv 0, .push, .enter 0, .enter 1,
   .startWatcher, .timer 1 0, .cancel .DeadlineExceeded, .done 0, .send 1, .send 0,
   .recv 0, .recv 1, .watch, .collect, .collect, .finish mixedOut]

/-- A batch of one task. -/
def raceTasks : List Task := [⟨5, "x"⟩]

/-- What `raceSchedule` returns: a success. -/
def raceOut : List Result := [⟨5, "processed-x-result-10", none, 0⟩]

/-- A run of one worker on `raceTasks` under a context cancelled beforehand, in
which the timer case of the `select` runs although `<-ctx.Done()` is ready. -/
def raceSchedule : List Action :=
  [.spawn, .spawn, .push, .push, .startWatcher, .recv 0, .enter 0, .timer 0 7, .send 0,
   .recv 0, .watch, .collect, .finish raceOut]

/-- The run of a pool without workers on `demoTasks`. -/
def idleSchedule : List Action :=
  [.spawn, .push, .push, .push, .startWatcher, .watch, .finish []]

/-- The processor that always succeeds. -/
def succeed (task : Task) : String × Option String :=
  ProcessTask (.timer 1) task

/-! ## The step function and the step relation agree -/

theorem step_sound {s s' : State} {a : Action} (h : step s a = some s') : Step s a s' := by
  unfold step at h
  by_cases hp : s.panicked = true
  · simp [hp] at h
  · have hp' : s.panicked = false := by simpa using hp
    rw [if_neg hp] at h
    cases a with
    | cancel e =>
      simp only at h
      split at h
      · cases h; exact Step.cancel s e hp' ‹_›
      · cases h
    | spawn =>
      simp only [Action.worker, stepMain] at h
      split at h
      · split at h
        · cases h; exact Step.spawnGo s _ hp' ‹_› ‹_›
        · cases h; exact Step.spawnEnd s _ hp' ‹_› ‹_›
      · cases h
    | push =>
      simp only [Action.worker, stepMain] at h
      split at h
      · split at h
        · cases h; exact Step.pushTask s _ _ hp' ‹_› ‹_›
        · cases h
      · cases h; exact Step.pushClose s hp' ‹_›
      · cases h
    | startWatcher =>
      simp only [Action.worker, stepMain] at h
      split at h
      · cases h; exact Step.startWatcher s hp' ‹_›
      · cases h
    | watch =>
      simp only [Action.worker, stepMain] at h
      split at h
      · rename_i hc
        cases h
        exact Step.watch s hp' hc.1 (by simpa using hc.2.1) hc.2.2
      · cases h
    | collect =>
      simp only [Action.worker, stepMain] at h
      split at h
      · cases h; exact Step.collect s _ _ hp' ‹_› ‹_›
      · cases h
    | finish out =>
      simp only [Action.worker, stepMain] at h
      split at h
      · split at h
        · rename_i hc
          cases h; exact Step.finish s out hp' ‹_› ‹_› hc.1 hc.2
        · cases h
      · cases h
    | recv w =>
      simp only [Action.worker] at h
      split at h
      · rename_i wk hw
        simp only [worker] at h
        split at h
        · cases h; exact Step.recvTask s w wk _ _ hp' hw ‹_› ‹_›
        · split at h
          · split at h
            · cases h; exact Step.recvPanic s w wk hp' hw ‹_› ‹_› ‹_› ‹_›
            · cases h; exact Step.recvEnd s w wk hp' hw ‹_› ‹_› ‹_› ‹_›
          · cases h
        · cases h
      · cases h
    | enter w =>
      simp only [Action.worker] at h
      split at h
      · rename_i wk hw
        simp only [worker] at h
        split at h
        · cases h; exact Step.enterBlock s w wk _ hp' hw ‹_›
        · cases h
      · cases h
    | timer w r =>
      simp only [Action.worker] at h
      split at h
      · rename_i wk hw
        simp only [worker] at h
        split at h
        · cases h; exact Step.timer s w wk _ r hp' hw ‹_›
        · cases h
      · cases h
    | done w =>
      simp only [Action.worker] at h
      split at h
      · rename_i wk hw
        simp only [worker] at h
        split at h
        · cases h; exact Step.done s w wk _ _ hp' hw ‹_› ‹_›
        · cases h
      · cases h
    | send w =>
      simp only [Action.worker] at h
      split at h
      · rename_i wk hw
        simp only [worker] at h
        split at h
        · split at h
          · cases h; exact Step.sendPanic s w wk _ _ _ hp' hw ‹_› ‹_›
          · split at h
            · cases h; exact Step.send s w wk _ _ _ hp' hw ‹_› (by simpa using ‹¬ s.resultClosed = true›) ‹_›
            · cases h
        · cases h
      · cases h

theorem step_complete {s s' : State} {a : Action} (h : Step s a s') : step s a = some s' := by
  cases h <;> simp_all [step, stepMain, worker, Action.worker]

/-! ## Lists of workers -/

theorem live_append (ws vs : List Worker) : live (ws ++ vs) = live ws + live vs := by
  simp [live]

theorem live_set {ws : List Worker} {w : Nat} {wk : Worker} (wk' : Worker)
    (h : ws[w]? = some wk) :
    live (ws.set w wk') + (if wk.pc = .exited then 0 else 1)
      = live ws + (if wk'.pc = .exited then 0 else 1) := by
  induction ws generalizing w with
  | nil => simp at h
  | cons v vs ih =>
    cases w with
    | zero =>
      simp at h
      subst h
      simp [live, List.countP_cons]
      split <;> split <;> simp_all
    | succ n =>
      simp at h
      have := ih h
      simp [live, List.countP_cons] at this ⊢
      omega

theorem live_eq_zero {ws : List Worker} (h : live ws = 0) : ∀ wk ∈ ws, wk.pc = .exited := by
  intro wk hwk
  simp [live, List.countP_eq_zero] at h
  exact h wk hwk

theorem live_pos {ws : List Worker} {wk : Worker} (h : wk ∈ ws) (hpc : wk.pc ≠ .exited) :
    0 < live ws := by
  rcases Nat.eq_zero_or_pos (live ws) with h0 | h0
  · exact absurd (live_eq_zero h0 wk h) hpc
  · exact h0

theorem count_flatMap_set {α β : Type} [DecidableEq β] (f : α → List β) {ws : List α} {w : Nat}
    {wk : α} (wk' : α) (x : β) (h : ws[w]? = some wk) :
    ((ws.set w wk').flatMap f).count x + (f wk).count x
      = (ws.flatMap f).count x + (f wk').count x := by
  induction ws generalizing w with
  | nil => simp at h
  | cons v vs ih =>
    cases w with
    | zero =>
      simp at h
      subst h
      simp [List.count_append]
      omega
    | succ n =>
      simp at h
      have := ih h
      simp [List.count_append] at this ⊢
      omega

theorem sum_map_set {α : Type} (f : α → Nat) {ws : List α} {w : Nat} {wk : α} (wk' : α)
    (h : ws[w]? = some wk) :
    ((ws.set w wk').map f).sum + f wk = (ws.map f).sum + f wk' := by
  induction ws generalizing w with
  | nil => simp at h
  | cons v vs ih =>
    cases w with
    | zero =>
      simp at h
      subst h
      simp
      omega
    | succ n =>
      simp at h
      have := ih h
      simp at this ⊢
      omega

theorem flatMap_owns_exited {ws : List Worker} (h : ∀ wk ∈ ws, wk.pc = .exited) :
    ws.flatMap Worker.owns = [] := by
  induction ws with
  | nil => rfl
  | cons v vs ih =>
    have hv := h v (List.mem_cons_self _ _)
    simp only [List.flatMap_cons, Worker.owns, hv, List.nil_append]
    exact ih (fun wk hwk => h wk (List.mem_cons_of_mem _ hwk))

theorem length_owns_le {ws : List Worker} {wk : Worker} (h : wk ∈ ws) :
    wk.owns.length ≤ (ws.flatMap Worker.owns).length := by
  induction ws with
  | nil => cases h
  | cons v vs ih =>
    simp only [List.flatMap_cons, List.length_append]
    rcases List.mem_cons.1 h with rfl | h
    · omega
    · have := ih h
      omega

theorem receivedTasks_append (l₁ l₂ : List Event) :
    receivedTasks (l₁ ++ l₂) = receivedTasks l₁ ++ receivedTasks l₂ := by
  simp [receivedTasks]

/-! ## The control invariant holds -/

theorem invariant_init (wp : WorkerPool) (ctx : Option CtxErr) (tasks : List Task) :
    Invariant wp tasks (init wp ctx tasks) := by
  constructor <;> simp [WorkerPoolModel.init, MainPc.phase, live]

theorem invariant_step {wp : WorkerPool} {tasks : List Task} {s s' : State} {a : Action}
    (hi : Invariant wp tasks s) (h : Step s a s') : Invariant wp tasks s' := by
  cases h with
  | cancel e hp hc => exact { hi with }
  | spawnGo i hp hm hlt =>
    have hlen := hi.launch_len i hm
    have hph : s.main.phase = 0 := by rw [hm]; rfl
    refine { hi with launch_len := ?_, closed_iff := ?_, watcher_iff := ?_, workers_le := ?_,
                     workers_ge := ?_, ids := ?_, wg_eq := ?_, exited_imp := ?_,
                     rclosed_imp := ?_, ret_inv := ?_ }
    · intro j hj
      simp only [MainPc.launch.injEq] at hj
      simp [hlen, hj]
    · have := hi.closed_iff
      simp only [hph] at this
      simpa [MainPc.phase] using this
    · have := hi.watcher_iff
      simp only [hph] at this
      simpa [MainPc.phase] using this
    · have := hi.wp_eq
      simp only [List.length_append, List.length_singleton, hlen]
      rw [← this]
      omega
    · simp [MainPc.phase]
    · intro j wk hj
      simp only [List.getElem?_append, List.length_singleton] at hj
      split at hj
      · exact hi.ids j wk hj
      · rename_i hlt'
        have : j - s.workers.length = 0 := by
          by_contra hne
          have : (([{ workerID := (i : Int), pc := WorkerPc.idle }] : List Worker))[j - s.workers.length]? = none := by
            apply List.getElem?_eq_none
            simp; omega
          rw [this] at hj
          cases hj
        rw [this] at hj
        simp at hj
        subst hj
        simp
        omega
    · simp only [live_append, hi.wg_eq]
      simp [live]
    · intro wk hwk hpc
      simp only [List.mem_append, List.mem_singleton] at hwk
      rcases hwk with hwk | hwk
      · exact hi.exited_imp wk hwk hpc
      · subst hwk; cases hpc
    · intro hrc
      have := (hi.watcher_iff).1 (hi.rclosed_imp hrc).1
      omega
    · intro out err hh
      cases hh
  | spawnEnd i hp hm hge =>
    have hlen := hi.launch_len i hm
    have hph : s.main.phase = 0 := by rw [hm]; rfl
    refine { hi with tasks_eq := hi.tasks_eq, launch_len := ?_, closed_iff := ?_, watcher_iff := ?_,
                     workers_ge := ?_, ret_inv := ?_ }
    · intro j hj; cases hj
    · have := hi.closed_iff
      simp only [hph] at this
      simpa [MainPc.phase] using this
    · have := hi.watcher_iff
      simp only [hph] at this
      simpa [MainPc.phase] using this
    · intro _
      have := hi.wp_eq
      rw [← this, hlen]
      omega
    · intro out err hh
      cases hh
  | pushTask task rest hp hm hcap =>
    have hph : s.main.phase = 1 := by rw [hm]; rfl
    refine { hi with launch_len := ?_, closed_iff := ?_, watcher_iff := ?_,
                     workers_ge := ?_, exited_imp := ?_, ret_inv := ?_ }
    · intro j hj; cases hj
    · have := hi.closed_iff
      simp only [hph] at this
      simpa [MainPc.phase] using this
    · have := hi.watcher_iff
      simp only [hph] at this
      simpa [MainPc.phase] using this
    · intro _
      exact hi.workers_ge (by omega)
    · intro wk hwk hpc
      have := (hi.closed_iff).1 (hi.exited_imp wk hwk hpc).1
      omega
    · intro out err hh
      cases hh
  | pushClose hp hm =>
    have hph : s.main.phase = 1 := by rw [hm]; rfl
    refine { hi with launch_len := ?_, closed_iff := ?_, watcher_iff := ?_,
                     workers_ge := ?_, exited_imp := ?_, ret_inv := ?_ }
    · intro j hj; cases hj
    · simp [MainPc.phase]
    · have := hi.watcher_iff
      simp only [hph] at this
      simpa [MainPc.phase] using this
    · intro _
      exact hi.workers_ge (by omega)
    · intro wk hwk hpc
      have := (hi.closed_iff).1 (hi.exited_imp wk hwk hpc).1
      omega
    · intro out err hh
      cases hh
  | startWatcher hp hm =>
    have hph : s.main.phase = 2 := by rw [hm]; rfl
    refine { hi with launch_len := ?_, closed_iff := ?_, watcher_iff := ?_,
                     workers_ge := ?_, rclosed_imp := ?_, ret_inv := ?_ }
    · intro j hj; cases hj
    · have := hi.closed_iff
      simp only [hph] at this
      simpa [MainPc.phase] using this
    · simp [MainPc.phase]
    · intro _
      exact hi.workers_ge (by omega)
    · intro hrc
      exact ⟨rfl, (hi.rclosed_imp hrc).2⟩
    · intro out err hh
      cases hh
  | watch hp hw hr hwg =>
    refine { hi with rclosed_imp := ?_, ret_inv := ?_ }
    · intro _
      refine ⟨hw, live_eq_zero ?_⟩
      show live s.workers = 0
      have := hi.wg_eq
      omega
    · intro out err hh
      have := hi.ret_inv out err hh
      rw [hr] at this
      cases this.1
  | collect r rest hp hm hr =>
    refine { hi with ret_inv := ?_ }
    intro out err hh
    have hh' : s.main = .returned out err := hh
    rw [hm] at hh'
    cases hh'
  | finish out hp hm hr hc hs =>
    have hph : s.main.phase = 3 := by rw [hm]; rfl
    refine { hi with launch_len := ?_, closed_iff := ?_, watcher_iff := ?_,
                     workers_ge := ?_, ret_inv := ?_ }
    · intro j hj; cases hj
    · have := hi.closed_iff
      simp only [hph] at this
      simpa [MainPc.phase] using this
    · have := hi.watcher_iff
      simp only [hph] at this
      simpa [MainPc.phase] using this
    · intro _
      exact hi.workers_ge (by omega)
    · intro out' err hh
      cases hh
      exact ⟨hc, hr, hs, rfl⟩
  | recvTask w wk task rest hp hw hpc ht =>
    have hmem : wk ∈ s.workers := List.mem_iff_getElem?.2 ⟨w, hw⟩
    refine { hi with launch_len := ?_, workers_le := ?_, workers_ge := ?_, ids := ?_,
                     wg_eq := ?_, exited_imp := ?_, rclosed_imp := ?_, ret_inv := ?_ }
    · intro j hj
      simpa using hi.launch_len j hj
    · simpa using hi.workers_le
    · simpa using hi.workers_ge
    · intro j v hj
      rw [List.getElem?_set] at hj
      split at hj
      · split at hj
        · cases hj
          subst ‹w = j›
          exact hi.ids w wk hw
        · cases hj
      · exact hi.ids j v hj
    · have := live_set { wk with pc := .called task } hw
      simp only [hpc] at this
      have h2 := hi.wg_eq
      simp at this
      simp only [h2]
      omega
    · intro v hv hvpc
      rcases List.mem_or_eq_of_mem_set hv with hv | hv
      · have := hi.exited_imp v hv hvpc
        rw [ht] at this
        cases this.2
      · subst hv; cases hvpc
    · intro hrc
      have := (hi.rclosed_imp hrc).2 wk hmem
      rw [hpc] at this
      cases this
    · intro out err hh
      have := (hi.rclosed_imp (hi.ret_inv out err hh).1).2 wk hmem
      rw [hpc] at this
      cases this
  | recvPanic w wk hp hw hpc ht hc hwg =>
    exfalso
    have hmem : wk ∈ s.workers := List.mem_iff_getElem?.2 ⟨w, hw⟩
    have := live_pos hmem (by rw [hpc]; simp)
    have h2 := hi.wg_eq
    omega
  | recvEnd w wk hp hw hpc ht hc hwg =>
    have hmem : wk ∈ s.workers := List.mem_iff_getElem?.2 ⟨w, hw⟩
    refine { hi with launch_len := ?_, workers_le := ?_, workers_ge := ?_, ids := ?_,
                     wg_eq := ?_, exited_imp := ?_, rclosed_imp := ?_, ret_inv := ?_ }
    · intro j hj
      simpa using hi.launch_len j hj
    · simpa using hi.workers_le
    · simpa using hi.workers_ge
    · intro j v hj
      rw [List.getElem?_set] at hj
      split at hj
      · split at hj
        · cases hj
          subst ‹w = j›
          exact hi.ids w wk hw
        · cases hj
      · exact hi.ids j v hj
    · have := live_set { wk with pc := .exited } hw
      simp only [hpc] at this
      have h2 := hi.wg_eq
      simp at this
      simp only [h2]
      omega
    · intro v hv hvpc
      exact ⟨hc, ht⟩
    · intro hrc
      have := (hi.rclosed_imp hrc).2 wk hmem
      rw [hpc] at this
      cases this
    · intro out err hh
      have := (hi.rclosed_imp (hi.ret_inv out err hh).1).2 wk hmem
      rw [hpc] at this
      cases this
  | enterBlock w wk task hp hw hpc =>
    have hmem : wk ∈ s.workers := List.mem_iff_getElem?.2 ⟨w, hw⟩
    refine { hi with launch_len := ?_, workers_le := ?_, workers_ge := ?_, ids := ?_,
                     wg_eq := ?_, exited_imp := ?_, rclosed_imp := ?_, ret_inv := ?_ }
    · intro j hj
      simpa [finishCall] using hi.launch_len j hj
    · simpa [finishCall] using hi.workers_le
    · simpa [finishCall] using hi.workers_ge
    · intro j v hj
      simp only [finishCall] at hj
      rw [List.getElem?_set] at hj
      split at hj
      · split at hj
        · cases hj
          subst ‹w = j›
          exact hi.ids w wk hw
        · cases hj
      · exact hi.ids j v hj
    · have := live_set { wk with pc := .blocked task } hw
      simp only [hpc] at this
      have h2 := hi.wg_eq
      simp at this
      simp only [finishCall, h2]
      omega
    · intro v hv hvpc
      rcases List.mem_or_eq_of_mem_set hv with hv | hv
      · exact hi.exited_imp v hv hvpc
      · subst hv; cases hvpc
    · intro hrc
      have := (hi.rclosed_imp hrc).2 wk hmem
      rw [hpc] at this
      cases this
    · intro out err hh
      have := (hi.rclosed_imp (hi.ret_inv out err hh).1).2 wk hmem
      rw [hpc] at this
      cases this
  | timer w wk task r hp hw hpc =>
    have hmem : wk ∈ s.workers := List.mem_iff_getElem?.2 ⟨w, hw⟩
    refine { hi with launch_len := ?_, workers_le := ?_, workers_ge := ?_, ids := ?_,
                     wg_eq := ?_, exited_imp := ?_, rclosed_imp := ?_, ret_inv := ?_ }
    · intro j hj
      simpa [finishCall] using hi.launch_len j hj
    · simpa [finishCall] using hi.workers_le
    · simpa [finishCall] using hi.workers_ge
    · intro j v hj
      simp only [finishCall] at hj
      rw [List.getElem?_set] at hj
      split at hj
      · split at hj
        · cases hj
          subst ‹w = j›
          exact hi.ids w wk hw
        · cases hj
      · exact hi.ids j v hj
    · have := live_set { wk with pc := .returned task (ProcessTask (.timer r) task).1 (ProcessTask (.timer r) task).2 } hw
      simp only [hpc] at this
      have h2 := hi.wg_eq
      simp at this
      simp only [finishCall, h2]
      omega
    · intro v hv hvpc
      rcases List.mem_or_eq_of_mem_set hv with hv | hv
      · exact hi.exited_imp v hv hvpc
      · subst hv; cases hvpc
    · intro hrc
      have := (hi.rclosed_imp hrc).2 wk hmem
      rw [hpc] at this
      cases this
    · intro out err hh
      have := (hi.rclosed_imp (hi.ret_inv out err hh).1).2 wk hmem
      rw [hpc] at this
      cases this
  | done w wk task e hp hw hpc hc =>
    have hmem : wk ∈ s.workers := List.mem_iff_getElem?.2 ⟨w, hw⟩
    refine { hi with launch_len := ?_, workers_le := ?_, workers_ge := ?_, ids := ?_,
                     wg_eq := ?_, exited_imp := ?_, rclosed_imp := ?_, ret_inv := ?_ }
    · intro j hj
      simpa [finishCall] using hi.launch_len j hj
    · simpa [finishCall] using hi.workers_le
    · simpa [finishCall] using hi.workers_ge
    · intro j v hj
      simp only [finishCall] at hj
      rw [List.getElem?_set] at hj
      split at hj
      · split at hj
        · cases hj
          subst ‹w = j›
          exact hi.ids w wk hw
        · cases hj
      · exact hi.ids j v hj
    · have := live_set { wk with pc := .returned task (ProcessTask (.done e) task).1 (ProcessTask (.done e) task).2 } hw
      simp only [hpc] at this
      have h2 := hi.wg_eq
      simp at this
      simp only [finishCall, h2]
      omega
    · intro v hv hvpc
      rcases List.mem_or_eq_of_mem_set hv with hv | hv
      · exact hi.exited_imp v hv hvpc
      · subst hv; cases hvpc
    · intro hrc
      have := (hi.rclosed_imp hrc).2 wk hmem
      rw [hpc] at this
      cases this
    · intro out err hh
      have := (hi.rclosed_imp (hi.ret_inv out err hh).1).2 wk hmem
      rw [hpc] at this
      cases this
  | sendPanic w wk task output err hp hw hpc hc =>
    exfalso
    have hmem : wk ∈ s.workers := List.mem_iff_getElem?.2 ⟨w, hw⟩
    have := (hi.rclosed_imp hc).2 wk hmem
    rw [hpc] at this
    cases this
  | send w wk task output err hp hw hpc hc hcap =>
    have hmem : wk ∈ s.workers := List.mem_iff_getElem?.2 ⟨w, hw⟩
    refine { hi with launch_len := ?_, workers_le := ?_, workers_ge := ?_, ids := ?_,
                     wg_eq := ?_, exited_imp := ?_, rclosed_imp := ?_, ret_inv := ?_ }
    · intro j hj
      simpa [finishCall] using hi.launch_len j hj
    · simpa [finishCall] using hi.workers_le
    · simpa [finishCall] using hi.workers_ge
    · intro j v hj
      simp only [finishCall] at hj
      rw [List.getElem?_set] at hj
      split at hj
      · split at hj
        · cases hj
          subst ‹w = j›
          exact hi.ids w wk hw
        · cases hj
      · exact hi.ids j v hj
    · have := live_set { wk with pc := .idle } hw
      simp only [hpc] at this
      have h2 := hi.wg_eq
      simp at this
      simp only [finishCall, h2]
      omega
    · intro v hv hvpc
      rcases List.mem_or_eq_of_mem_set hv with hv | hv
      · exact hi.exited_imp v hv hvpc
      · subst hv; cases hvpc
    · intro hrc
      have := (hi.rclosed_imp hrc).2 wk hmem
      rw [hpc] at this
      cases this
    · intro out err hh
      have := (hi.rclosed_imp (hi.ret_inv out err hh).1).2 wk hmem
      rw [hpc] at this
      cases this

/-! ## No task identity is lost -/

theorem conserved_init (wp : WorkerPool) (ctx : Option CtxErr) (tasks : List Task) :
    Conserved tasks (init wp ctx tasks) := by
  intro x
  simp [WorkerPoolModel.init, State.ids, MainPc.unsent]

theorem conserved_step {tasks : List Task} {s s' : State} {a : Action}
    (hi : Conserved tasks s) (h : Step s a s') : Conserved tasks s' := by
  intro x
  have hx := hi x
  cases h with
  | cancel e hp hc => exact hx
  | spawnGo i hp hm hlt =>
    simp only [State.ids, hm, MainPc.unsent] at hx ⊢
    simpa [Worker.owns] using hx
  | spawnEnd i hp hm hge =>
    simp only [State.ids, hm, MainPc.unsent] at hx ⊢
    exact hx
  | pushTask task rest hp hm hcap =>
    simp only [State.ids, hm, MainPc.unsent] at hx ⊢
    simp [List.count_append, List.count_cons] at hx ⊢
    omega
  | pushClose hp hm =>
    simp only [State.ids, hm, MainPc.unsent] at hx ⊢
    exact hx
  | startWatcher hp hm =>
    simp only [State.ids, hm, MainPc.unsent] at hx ⊢
    exact hx
  | watch hp hw hr hwg => exact hx
  | collect r rest hp hm hr =>
    simp only [State.ids, hm, hr, MainPc.unsent] at hx ⊢
    simp [List.count_append, List.count_cons] at hx ⊢
    omega
  | finish out hp hm hr hc hs =>
    simp only [State.ids, hm, MainPc.unsent] at hx ⊢
    exact hx
  | recvTask w wk task rest hp hw hpc ht =>
    have hc := count_flatMap_set Worker.owns { wk with pc := .called task } x hw
    simp only [State.ids, ht] at hx ⊢
    simp [List.count_append, List.count_cons, Worker.owns, hpc] at hx hc ⊢
    omega
  | recvPanic w wk hp hw hpc ht hc hwg => exact hx
  | recvEnd w wk hp hw hpc ht hc hwg =>
    have hc := count_flatMap_set Worker.owns { wk with pc := .exited } x hw
    simp only [State.ids] at hx ⊢
    simp [List.count_append, List.count_cons, Worker.owns, hpc] at hx hc ⊢
    omega
  | enterBlock w wk task hp hw hpc =>
    have hc := count_flatMap_set Worker.owns { wk with pc := .blocked task } x hw
    simp only [State.ids] at hx ⊢
    simp [List.count_append, List.count_cons, Worker.owns, hpc] at hx hc ⊢
    omega
  | timer w wk task r hp hw hpc =>
    have hc := count_flatMap_set Worker.owns
      { wk with pc := .returned task (ProcessTask (.timer r) task).1 (ProcessTask (.timer r) task).2 } x hw
    simp only [State.ids, finishCall] at hx ⊢
    simp [List.count_append, List.count_cons, Worker.owns, hpc] at hx hc ⊢
    omega
  | done w wk task e hp hw hpc hc =>
    have hc := count_flatMap_set Worker.owns
      { wk with pc := .returned task (ProcessTask (.done e) task).1 (ProcessTask (.done e) task).2 } x hw
    simp only [State.ids, finishCall] at hx ⊢
    simp [List.count_append, List.count_cons, Worker.owns, hpc] at hx hc ⊢
    omega
  | sendPanic w wk task output err hp hw hpc hc => exact hx
  | send w wk task output err hp hw hpc hc hcap =>
    have hc := count_flatMap_set Worker.owns { wk with pc := .idle } x hw
    simp only [State.ids] at hx ⊢
    simp [List.count_append, List.count_cons, Worker.owns, hpc, mkResult] at hx hc ⊢
    omega

theorem Conserved.length_eq {tasks : List Task} {s : State} (h : Conserved tasks s) :
    s.ids.length = tasks.length := by
  have : s.ids.Perm (tasks.map Task.ID) := List.perm_iff_count.2 h
  simpa using this.length_eq

/-! ## The log is right -/

theorem logged_init (wp : WorkerPool) (ctx : Option CtxErr) (tasks : List Task) :
    Logged ctx tasks (init wp ctx tasks) := by
  constructor <;> simp [WorkerPoolModel.init, MainPc.unsent, receivedTasks]

theorem logged_step {ctx0 : Option CtxErr} {wp : WorkerPool} {tasks : List Task} {s s' : State}
    {a : Action} (hi : Invariant wp tasks s) (hl : Logged ctx0 tasks s) (h : Step s a s') :
    Logged ctx0 tasks s' := by
  cases h with
  | cancel e hp hc =>
    refine { hl with ctx_fired := ?_ }
    intro e0 he0
    have := hl.ctx_fired e0 he0
    rw [hc] at this
    cases this
  | spawnGo i hp hm hlt =>
    refine { hl with src := ?_, received_ok := ?_, called_ok := ?_,
                     returned_ok := ?_, recv_count := ?_ }
    · have := hl.src
      simpa [hm, MainPc.unsent] using this
    · intro w t hw
      have := hl.received_ok w t hw
      refine ⟨this.1, this.2.1, ?_⟩
      simp only [List.length_append, List.length_singleton]
      omega
    · intro wk hwk t hpc
      simp only [List.mem_append, List.mem_singleton] at hwk
      rcases hwk with hwk | hwk
      · exact hl.called_ok wk hwk t hpc
      · subst hwk; simp at hpc
    · intro wk hwk t o e hpc
      simp only [List.mem_append, List.mem_singleton] at hwk
      rcases hwk with hwk | hwk
      · exact hl.returned_ok wk hwk t o e hpc
      · subst hwk; simp at hpc
    · have := hl.recv_count
      simpa [hm, MainPc.unsent] using this
  | spawnEnd i hp hm hge =>
    refine { hl with src := ?_, recv_count := ?_ }
    · have := hl.src
      simpa [hm, MainPc.unsent] using this
    · have := hl.recv_count
      simpa [hm, MainPc.unsent] using this
  | pushTask task rest hp hm hcap =>
    refine { hl with src := ?_, recv_count := ?_ }
    · have := hl.src
      simp only [hm, MainPc.unsent] at this
      intro t ht
      apply this
      simp only [MainPc.unsent, List.mem_append, List.mem_singleton] at ht
      simp only [List.mem_cons]
      tauto
    · intro t
      have := hl.recv_count t
      simp only [hm, MainPc.unsent] at this
      simp only [MainPc.unsent]
      simp [List.count_append, List.count_cons] at this ⊢
      omega
  | pushClose hp hm =>
    refine { hl with src := ?_, recv_count := ?_ }
    · have := hl.src
      simpa [hm, MainPc.unsent] using this
    · have := hl.recv_count
      simpa [hm, MainPc.unsent] using this
  | startWatcher hp hm =>
    refine { hl with src := ?_, recv_count := ?_ }
    · have := hl.src
      simpa [hm, MainPc.unsent] using this
    · have := hl.recv_count
      simpa [hm, MainPc.unsent] using this
  | watch hp hw hr hwg => exact { hl with }
  | collect r rest hp hm hr =>
    refine { hl with chan_ok := ?_ }
    intro r' hr'
    apply hl.chan_ok
    rw [hr]
    simp only [List.mem_append, List.mem_singleton] at hr'
    simp only [List.mem_cons]
    tauto
  | finish out hp hm hr hc hs =>
    refine { hl with src := ?_, recv_count := ?_ }
    · have := hl.src
      simpa [hm, MainPc.unsent] using this
    · have := hl.recv_count
      simpa [hm, MainPc.unsent] using this
  | recvPanic w wk hp hw hpc ht hc hwg => exact { hl with }
  | sendPanic w wk task output err hp hw hpc hc => exact { hl with }
  | recvTask w wk task rest hp hw hpc ht =>
    have hmem : wk ∈ s.workers := List.mem_iff_getElem?.2 ⟨w, hw⟩
    have hwlt : w < s.workers.length := by
      by_contra hge
      rw [List.getElem?_eq_none (by omega)] at hw
      cases hw
    refine { hl with src := ?_, received_ok := ?_, processed_ok := ?_,
                     called_ok := ?_, returned_ok := ?_, chan_ok := ?_, recv_count := ?_ }
    · intro t htm
      apply hl.src t
      rw [ht]
      simp only [List.mem_cons]
      tauto
    · intro w' t hw'
      simp only [List.mem_append, List.mem_singleton, List.length_set] at hw' ⊢
      rcases hw' with hw' | hw'
      · exact hl.received_ok w' t hw'
      · cases hw'
        refine ⟨hl.src task (Or.inr (by rw [ht]; simp)), ?_, ?_⟩
        · rw [hi.ids w wk hw]; omega
        · rw [hi.ids w wk hw]; omega
    · intro w' t o er hw'
      simp only [List.mem_append, List.mem_singleton] at hw' ⊢
      rcases hw' with hw' | hw'
      · have := hl.processed_ok w' t o er hw'
        exact ⟨Or.inl this.1, this.2⟩
      · cases hw'
    · intro v hv t hvpc
      simp only [List.mem_append, List.mem_singleton]
      rcases List.mem_or_eq_of_mem_set hv with hv | rfl
      · exact Or.inl (hl.called_ok v hv t hvpc)
      · have : task = t := by simpa using hvpc
        subst this
        exact Or.inr rfl
    · intro v hv t o er hvpc
      simp only [List.mem_append, List.mem_singleton]
      rcases List.mem_or_eq_of_mem_set hv with hv | rfl
      · exact Or.inl (hl.returned_ok v hv t o er hvpc)
      · simp at hvpc
    · intro r hr
      obtain ⟨t, ht, hid⟩ := hl.chan_ok r hr
      exact ⟨t, by simp only [List.mem_append]; exact Or.inl ht, hid⟩
    · intro t
      have := hl.recv_count t
      rw [ht] at this
      simp [receivedTasks_append, receivedTasks, List.count_cons] at this ⊢
      omega
  | recvEnd w wk hp hw hpc ht hc hwg =>
    refine { hl with received_ok := ?_, called_ok := ?_, returned_ok := ?_ }
    · intro w' t hw'
      simpa using hl.received_ok w' t hw'
    · intro v hv t hvpc
      rcases List.mem_or_eq_of_mem_set hv with hv | rfl
      · exact hl.called_ok v hv t hvpc
      · simp at hvpc
    · intro v hv t o er hvpc
      rcases List.mem_or_eq_of_mem_set hv with hv | rfl
      · exact hl.returned_ok v hv t o er hvpc
      · simp at hvpc
  | enterBlock w wk task hp hw hpc =>
    have hmem : wk ∈ s.workers := List.mem_iff_getElem?.2 ⟨w, hw⟩
    refine { hl with received_ok := ?_, called_ok := ?_, returned_ok := ?_ }
    · intro w' t hw'
      simpa using hl.received_ok w' t hw'
    · intro v hv t hvpc
      rcases List.mem_or_eq_of_mem_set hv with hv | rfl
      · exact hl.called_ok v hv t hvpc
      · have : task = t := by simpa using hvpc
        subst this
        exact hl.called_ok wk hmem task (Or.inl hpc)
    · intro v hv t o er hvpc
      rcases List.mem_or_eq_of_mem_set hv with hv | rfl
      · exact hl.returned_ok v hv t o er hvpc
      · simp at hvpc
  | send w wk task output err hp hw hpc hc hcap =>
    have hmem : wk ∈ s.workers := List.mem_iff_getElem?.2 ⟨w, hw⟩
    refine { hl with received_ok := ?_, called_ok := ?_, returned_ok := ?_,
                     chan_ok := ?_ }
    · intro w' t hw'
      simpa using hl.received_ok w' t hw'
    · intro v hv t hvpc
      rcases List.mem_or_eq_of_mem_set hv with hv | rfl
      · exact hl.called_ok v hv t hvpc
      · simp at hvpc
    · intro v hv t o er hvpc
      rcases List.mem_or_eq_of_mem_set hv with hv | rfl
      · exact hl.returned_ok v hv t o er hvpc
      · simp at hvpc
    · intro r hr
      simp only [List.mem_append, List.mem_singleton] at hr
      rcases hr with (hr | rfl) | hr
      · exact hl.chan_ok r (Or.inl hr)
      · exact ⟨task, hl.returned_ok wk hmem task output err hpc, rfl⟩
      · exact hl.chan_ok r (Or.inr hr)
  | timer w wk task r hp hw hpc =>
    have hmem : wk ∈ s.workers := List.mem_iff_getElem?.2 ⟨w, hw⟩
    refine { hl with received_ok := ?_, processed_ok := ?_, called_ok := ?_,
                     returned_ok := ?_, chan_ok := ?_, recv_count := ?_ }
    · intro w' t hw'
      simp only [finishCall, List.mem_append, List.mem_singleton] at hw'
      rcases hw' with hw' | hw'
      · simpa [finishCall] using hl.received_ok w' t hw'
      · cases hw'
    · intro w' t o er hw'
      simp only [finishCall, List.mem_append, List.mem_singleton] at hw' ⊢
      rcases hw' with hw' | hw'
      · have := hl.processed_ok w' t o er hw'
        exact ⟨Or.inl this.1, this.2⟩
      · cases hw'
        refine ⟨Or.inl (hl.called_ok wk hmem task (by simp [hpc])), ⟨Select.timer r, rfl⟩, ?_⟩
        intro e0 _
        exact Or.inr ⟨r, rfl⟩
    · intro v hv t hvpc
      simp only [finishCall, List.mem_append, List.mem_singleton]
      rcases List.mem_or_eq_of_mem_set hv with hv | rfl
      · exact Or.inl (hl.called_ok v hv t hvpc)
      · simp at hvpc
    · intro v hv t o er hvpc
      simp only [finishCall, List.mem_append, List.mem_singleton]
      rcases List.mem_or_eq_of_mem_set hv with hv | rfl
      · exact Or.inl (hl.returned_ok v hv t o er hvpc)
      · simp only [WorkerPc.returned.injEq] at hvpc
        obtain ⟨rfl, rfl, rfl⟩ := hvpc
        exact Or.inr rfl
    · intro r hr
      obtain ⟨t, ht, hid⟩ := hl.chan_ok r hr
      exact ⟨t, by simp only [finishCall, List.mem_append]; exact Or.inl ht, hid⟩
    · intro t
      have := hl.recv_count t
      simpa [finishCall, receivedTasks_append, receivedTasks] using this
  | done w wk task e hp hw hpc hc =>
    have hmem : wk ∈ s.workers := List.mem_iff_getElem?.2 ⟨w, hw⟩
    refine { hl with received_ok := ?_, processed_ok := ?_, called_ok := ?_,
                     returned_ok := ?_, chan_ok := ?_, recv_count := ?_ }
    · intro w' t hw'
      simp only [finishCall, List.mem_append, List.mem_singleton] at hw'
      rcases hw' with hw' | hw'
      · simpa [finishCall] using hl.received_ok w' t hw'
      · cases hw'
    · intro w' t o er hw'
      simp only [finishCall, List.mem_append, List.mem_singleton] at hw' ⊢
      rcases hw' with hw' | hw'
      · have := hl.processed_ok w' t o er hw'
        exact ⟨Or.inl this.1, this.2⟩
      · cases hw'
        refine ⟨Or.inl (hl.called_ok wk hmem task (by simp [hpc])), ⟨Select.done e, rfl⟩, ?_⟩
        intro e0 he0
        have := hl.ctx_fired e0 he0
        rw [hc] at this
        cases this
        exact Or.inl rfl
    · intro v hv t hvpc
      simp only [finishCall, List.mem_append, List.mem_singleton]
      rcases List.mem_or_eq_of_mem_set hv with hv | rfl
      · exact Or.inl (hl.called_ok v hv t hvpc)
      · simp at hvpc
    · intro v hv t o er hvpc
      simp only [finishCall, List.mem_append, List.mem_singleton]
      rcases List.mem_or_eq_of_mem_set hv with hv | rfl
      · exact Or.inl (hl.returned_ok v hv t o er hvpc)
      · simp only [WorkerPc.returned.injEq] at hvpc
        obtain ⟨rfl, rfl, rfl⟩ := hvpc
        exact Or.inr rfl
    · intro r hr
      obtain ⟨t, ht, hid⟩ := hl.chan_ok r hr
      exact ⟨t, by simp only [finishCall, List.mem_append]; exact Or.inl ht, hid⟩
    · intro t
      have := hl.recv_count t
      simpa [finishCall, receivedTasks_append, receivedTasks] using this

/-! ## Reachable states -/

theorem reach_init (wp : WorkerPool) (ctx : Option CtxErr) (tasks : List Task) :
    Reach wp ctx tasks (init wp ctx tasks) :=
  ⟨invariant_init wp ctx tasks, conserved_init wp ctx tasks, logged_init wp ctx tasks⟩

theorem Reach.of_step {wp : WorkerPool} {ctx0 : Option CtxErr} {tasks : List Task} {s s' : State}
    {a : Action} (hr : Reach wp ctx0 tasks s) (h : step s a = some s') :
    Reach wp ctx0 tasks s' :=
  have hs := step_sound h
  ⟨invariant_step hr.inv hs, conserved_step hr.cons hs, logged_step hr.inv hr.logged hs⟩

theorem Reach.of_run {wp : WorkerPool} {ctx0 : Option CtxErr} {tasks : List Task}
    {sched : List Action} {s s' : State}
    (hr : Reach wp ctx0 tasks s) (h : run s sched = some s') : Reach wp ctx0 tasks s' := by
  induction sched generalizing s with
  | nil =>
    simp only [WorkerPoolModel.run, Option.some.injEq] at h
    subst h
    exact hr
  | cons a rest ih =>
    simp only [WorkerPoolModel.run] at h
    cases hstep : step s a with
    | none => rw [hstep] at h; cases h
    | some s1 =>
      rw [hstep] at h
      exact ih (hr.of_step hstep) h

theorem Reach.of_execute {wp : WorkerPool} {ctx : Option CtxErr} {tasks : List Task}
    {sched : List Action} {s : State} (h : execute wp ctx tasks sched = some s) :
    Reach wp ctx tasks s :=
  (reach_init wp ctx tasks).of_run h

theorem run_append (s : State) (xs ys : List Action) :
    run s (xs ++ ys) = (run s xs).bind (fun s' => run s' ys) := by
  induction xs generalizing s with
  | nil => simp [run]
  | cons a rest ih =>
    simp only [List.cons_append, run]
    cases step s a with
    | none => simp
    | some s1 => simp [ih]

theorem ProcessTasks_eq_some {wp : WorkerPool} {ctx : Option CtxErr} {tasks : List Task}
    {sched : List Action} {out : List Result} {err : Option String} :
    ProcessTasks wp ctx tasks sched = some (out, err) ↔
      ∃ s, execute wp ctx tasks sched = some s ∧ s.main = .returned out err := by
  unfold ProcessTasks
  constructor
  · intro h
    cases hs : execute wp ctx tasks sched with
    | none => rw [hs] at h; cases h
    | some s =>
      rw [hs] at h
      refine ⟨s, rfl, ?_⟩
      simp only [Option.some_bind, State.returned] at h
      split at h
      · cases h; assumption
      · cases h
  · rintro ⟨s, hs, hm⟩
    rw [hs]
    simp [State.returned, hm]

theorem trace_eq {wp : WorkerPool} {ctx : Option CtxErr} {tasks : List Task}
    {sched : List Action} {s : State} (h : execute wp ctx tasks sched = some s) :
    trace wp ctx tasks sched = s.log := by
  simp [trace, h]

/-- What a returning run tells: the state it ends in. -/
theorem returned_reach {wp : WorkerPool} {ctx : Option CtxErr} {tasks : List Task}
    {sched : List Action} {out : List Result} {err : Option String}
    (h : ProcessTasks wp ctx tasks sched = some (out, err)) :
    ∃ s, execute wp ctx tasks sched = some s ∧ s.main = .returned out err ∧
      Reach wp ctx tasks s := by
  obtain ⟨s, hs, hm⟩ := ProcessTasks_eq_some.1 h
  exact ⟨s, hs, hm, Reach.of_execute hs⟩

/-! ## The state at the return -/

/-- After the `return`, with at least one worker, nothing is left in the channels. -/
theorem Reach.drained {wp : WorkerPool} {ctx0 : Option CtxErr} {tasks : List Task} {s : State}
    {out : List Result} {err : Option String}
    (hr : Reach wp ctx0 tasks s) (hm : s.main = .returned out err) (hc : 1 ≤ wp.Count) :
    s.taskChan = [] ∧ s.resultChan = [] ∧ (∀ wk ∈ s.workers, wk.pc = .exited) := by
  have hret := hr.inv.ret_inv out err hm
  have hex := (hr.inv.rclosed_imp hret.1).2
  have hph : s.main.phase = 4 := by rw [hm]; rfl
  have hlen := hr.inv.workers_ge (by omega)
  refine ⟨?_, hret.2.1, hex⟩
  cases hws : s.workers with
  | nil => rw [hws] at hlen; simp at hlen; omega
  | cons v vs =>
    have hv : v ∈ s.workers := by rw [hws]; exact List.mem_cons_self _ _
    exact (hr.inv.exited_imp v hv (hex v hv)).2

/-- After the `return`, with at least one worker, the collected results carry
exactly the identities of the input tasks. -/
theorem Reach.results_perm {wp : WorkerPool} {ctx0 : Option CtxErr} {tasks : List Task}
    {s : State} {out : List Result} {err : Option String}
    (hr : Reach wp ctx0 tasks s) (hm : s.main = .returned out err) (hc : 1 ≤ wp.Count) :
    (out.map Result.TaskID).Perm (tasks.map Task.ID) := by
  obtain ⟨htc, hrc, hex⟩ := hr.drained hm hc
  have hret := hr.inv.ret_inv out err hm
  have hperm : (out.map Result.TaskID).Perm (s.results.map Result.TaskID) := hret.2.2.1.1.map _
  refine hperm.trans ?_
  rw [List.perm_iff_count]
  intro x
  have := hr.cons x
  simp only [State.ids, hm, MainPc.unsent, htc, hrc, flatMap_owns_exited hex] at this
  simpa using this

theorem Reach.sorted {wp : WorkerPool} {ctx0 : Option CtxErr} {tasks : List Task}
    {s : State} {out : List Result} {err : Option String}
    (hr : Reach wp ctx0 tasks s) (hm : s.main = .returned out err) :
    (out.map Result.TaskID).Sorted (· ≤ ·) := by
  have hret := hr.inv.ret_inv out err hm
  have := hret.2.2.1.2
  simp only [List.Sorted, List.pairwise_map]
  refine this.imp ?_
  intro a b hab
  simp only [less, not_lt] at hab
  exact hab

/-- Where a returned result comes from. -/
theorem Reach.origin {wp : WorkerPool} {ctx0 : Option CtxErr} {tasks : List Task}
    {s : State} {out : List Result} {err : Option String}
    (hr : Reach wp ctx0 tasks s) (hm : s.main = .returned out err) {r : Result} (hmem : r ∈ out) :
    ∃ t, t ∈ tasks ∧ r.TaskID = t.ID ∧
      Event.received r.WorkerID t ∈ s.log ∧
      Event.processed r.WorkerID t r.Output r.Error ∈ s.log ∧
      0 ≤ r.WorkerID ∧ r.WorkerID < s.workers.length ∧
      (∃ sel, ProcessTask sel t = (r.Output, r.Error)) ∧
      (∀ e0, ctx0 = some e0 → ProcessTask (.done e0) t = (r.Output, r.Error) ∨
        ∃ rnd, ProcessTask (.timer rnd) t = (r.Output, r.Error)) := by
  have hret := hr.inv.ret_inv out err hm
  have hres : r ∈ s.results := hret.2.2.1.1.subset hmem
  obtain ⟨t, hproc, hid⟩ := hr.logged.chan_ok r (Or.inr hres)
  obtain ⟨hrecv, hsel, hctx⟩ := hr.logged.processed_ok _ _ _ _ hproc
  obtain ⟨htask, h0, hlt⟩ := hr.logged.received_ok _ _ hrecv
  exact ⟨t, htask, hid, hrecv, hproc, h0, hlt, hsel, hctx⟩

theorem sorted_index {out : List Result} (h : (out.map Result.TaskID).Sorted (· ≤ ·))
    (i j : Nat) (hi : i < out.length) (hj : j < out.length) (hij : i < j) :
    (out[i]).TaskID ≤ (out[j]).TaskID := by
  have := List.pairwise_iff_getElem.1 h i j (by simpa using hi) (by simpa using hj) hij
  simpa using this

theorem ids_eq_of_sorted_perm {out : List Result} {ids : List Int}
    (hp : (out.map Result.TaskID).Perm ids) (hs : (out.map Result.TaskID).Sorted (· ≤ ·))
    (hids : ids.Sorted (· ≤ ·)) : out.map Result.TaskID = ids :=
  List.eq_of_perm_of_sorted hp hs hids

/-- Two sorted lists of results over the same distinct identities, whose
outputs and errors are a function of the input task, agree up to the worker. -/
theorem outcome_unique {tasks : List Task} (f : Task → String × Option String)
    (hnd : (tasks.map Task.ID).Nodup) {out₁ out₂ : List Result}
    (hp₁ : (out₁.map Result.TaskID).Perm (tasks.map Task.ID))
    (hp₂ : (out₂.map Result.TaskID).Perm (tasks.map Task.ID))
    (hs₁ : (out₁.map Result.TaskID).Sorted (· ≤ ·))
    (hs₂ : (out₂.map Result.TaskID).Sorted (· ≤ ·))
    (hf₁ : ∀ r ∈ out₁, ∃ t ∈ tasks, r.TaskID = t.ID ∧ (r.Output, r.Error) = f t)
    (hf₂ : ∀ r ∈ out₂, ∃ t ∈ tasks, r.TaskID = t.ID ∧ (r.Output, r.Error) = f t) :
    out₁.map Result.outcome = out₂.map Result.outcome := by
  classical
  have hids : out₁.map Result.TaskID = out₂.map Result.TaskID :=
    List.eq_of_perm_of_sorted (hp₁.trans hp₂.symm) hs₁ hs₂
  let g : Int → Int × String × Option String := fun x =>
    if h : ∃ t ∈ tasks, t.ID = x then (x, (f h.choose).1, (f h.choose).2) else (x, "", none)
  have key : ∀ out : List Result,
      (∀ r ∈ out, ∃ t ∈ tasks, r.TaskID = t.ID ∧ (r.Output, r.Error) = f t) →
      out.map Result.outcome = (out.map Result.TaskID).map g := by
    intro out hout
    rw [List.map_map]
    apply List.map_congr_left
    intro r hr
    obtain ⟨t, ht, hid, hft⟩ := hout r hr
    have hex : ∃ t ∈ tasks, t.ID = r.TaskID := ⟨t, ht, hid.symm⟩
    have hch := hex.choose_spec
    have heq : hex.choose = t :=
      List.inj_on_of_nodup_map hnd hch.1 ht (hch.2.trans hid)
    simp only [Function.comp, g, dif_pos hex, heq, Result.outcome, ← hft]
  rw [key out₁ hf₁, key out₂ hf₂, hids]

/-- Each return path of `ProcessTask` sets exactly one of the output and the error. -/
theorem ProcessTask_one_of (sel : Select) (task : Task) :
    ((ProcessTask sel task).2 = none ∧ (ProcessTask sel task).1 ≠ "") ∨
    ((ProcessTask sel task).2 ≠ none ∧ (ProcessTask sel task).1 = "") := by
  cases sel with
  | timer r =>
    by_cases h : r.val = 0
    · right; simp [ProcessTask, h]
    · left
      simp only [ProcessTask, h, if_false, true_and]
      intro hcon
      have := congrArg String.length hcon
      simp only [String.length_append] at this
      have h10 : "processed-".length = 10 := by decide
      have h0 : "".length = 0 := by decide
      omega
  | done e => right; simp [ProcessTask]

/-! ## Every run is finite and none gets stuck -/

/-- Every step uses up fuel. -/
theorem Step.fuel_lt {s s' : State} {a : Action} (h : Step s a s') : s'.fuel < s.fuel := by
  cases h with
  | cancel e hp hc => simp [State.fuel, hc]
  | spawnGo i hp hm hlt =>
    simp only [State.fuel, hm, MainPc.fuel]
    simp [Worker.fuel]
    omega
  | spawnEnd i hp hm hge =>
    simp only [State.fuel, hm, MainPc.fuel]
    omega
  | pushTask task rest hp hm hcap =>
    simp only [State.fuel, hm, MainPc.fuel]
    simp
    omega
  | pushClose hp hm =>
    simp only [State.fuel, hm, MainPc.fuel]
    simp
  | startWatcher hp hm =>
    simp only [State.fuel, hm, MainPc.fuel]
    simp
  | watch hp hw hr hwg => simp [State.fuel, hr]
  | collect r rest hp hm hr =>
    simp only [State.fuel, hm, hr, MainPc.fuel]
    simp
  | finish out hp hm hr hc hs =>
    simp only [State.fuel, hm, MainPc.fuel]
    simp
  | recvTask w wk task rest hp hw hpc ht =>
    have := sum_map_set Worker.fuel { wk with pc := .called task } hw
    simp only [State.fuel, ht]
    simp [Worker.fuel, hpc] at this ⊢
    omega
  | recvPanic w wk hp hw hpc ht hc hwg => simp [State.fuel, hp]
  | recvEnd w wk hp hw hpc ht hc hwg =>
    have := sum_map_set Worker.fuel { wk with pc := .exited } hw
    simp only [State.fuel]
    simp [Worker.fuel, hpc] at this ⊢
    omega
  | enterBlock w wk task hp hw hpc =>
    have := sum_map_set Worker.fuel { wk with pc := .blocked task } hw
    simp only [State.fuel]
    simp [Worker.fuel, hpc] at this ⊢
    omega
  | timer w wk task r hp hw hpc =>
    have := sum_map_set Worker.fuel
      { wk with pc := .returned task (ProcessTask (.timer r) task).1 (ProcessTask (.timer r) task).2 } hw
    simp only [State.fuel, finishCall]
    simp [Worker.fuel, hpc] at this ⊢
    omega
  | done w wk task e hp hw hpc hc =>
    have := sum_map_set Worker.fuel
      { wk with pc := .returned task (ProcessTask (.done e) task).1 (ProcessTask (.done e) task).2 } hw
    simp only [State.fuel, finishCall]
    simp [Worker.fuel, hpc] at this ⊢
    omega
  | sendPanic w wk task output err hp hw hpc hc => simp [State.fuel, hp]
  | send w wk task output err hp hw hpc hc hcap =>
    have := sum_map_set Worker.fuel { wk with pc := .idle } hw
    simp only [State.fuel]
    simp [Worker.fuel, hpc] at this ⊢
    omega

/-- No schedule is longer than the fuel of the state it starts in. -/
theorem run_length_le {sched : List Action} {s s' : State} (h : run s sched = some s') :
    sched.length + s'.fuel ≤ s.fuel := by
  induction sched generalizing s with
  | nil =>
    simp only [run, Option.some.injEq] at h
    subst h
    simp
  | cons a rest ih =>
    simp only [run] at h
    cases hstep : step s a with
    | none => rw [hstep] at h; cases h
    | some s1 =>
      rw [hstep] at h
      have h1 := ih h
      have h2 := (step_sound hstep).fuel_lt
      simp only [List.length_cons]
      omega

/-- The slice `sortResults` leaves is one of those `sort.Slice` may leave. -/
theorem sortResults_sortedBy (results : List Result) : SortedBy results (sortResults results) :=
  ⟨List.perm_insertionSort _ _, List.sorted_insertionSort _ _⟩

/-- No deadlock: before the `return`, some goroutine can take a step. -/
theorem Reach.progress {wp : WorkerPool} {ctx0 : Option CtxErr} {tasks : List Task} {s : State}
    (hr : Reach wp ctx0 tasks s) (hnr : s.returned = none) :
    ∃ a s', a.internal = true ∧ step s a = some s' := by
  have hp := hr.inv.no_panic
  have hlen := hr.cons.length_eq
  have htk := hr.inv.tasks_eq
  simp only [State.ids, List.length_append, List.length_map] at hlen
  cases hm : s.main with
  | launch i =>
    by_cases hlt : (i : Int) < s.wp.Count
    · exact ⟨.spawn, _, rfl, step_complete (Step.spawnGo s i hp hm hlt)⟩
    · exact ⟨.spawn, _, rfl, step_complete (Step.spawnEnd s i hp hm hlt)⟩
  | submit rest =>
    cases rest with
    | nil => exact ⟨.push, _, rfl, step_complete (Step.pushClose s hp hm)⟩
    | cons t rest =>
      refine ⟨.push, _, rfl, step_complete (Step.pushTask s t rest hp hm ?_)⟩
      simp only [hm, MainPc.unsent, List.length_cons] at hlen
      rw [htk]
      omega
  | goWatcher => exact ⟨.startWatcher, _, rfl, step_complete (Step.startWatcher s hp hm)⟩
  | returned out err => simp [State.returned, hm] at hnr
  | collect =>
    have hph : s.main.phase = 3 := by rw [hm]; rfl
    cases hrc : s.resultChan with
    | cons r rest => exact ⟨.collect, _, rfl, step_complete (Step.collect s r rest hp hm hrc)⟩
    | nil =>
      cases hcl : s.resultClosed with
      | true =>
        exact ⟨.finish (sortResults s.results), _, rfl,
          step_complete (Step.finish s _ hp hm hrc hcl (sortResults_sortedBy _))⟩
      | false =>
        have hw : s.watcher = true := hr.inv.watcher_iff.2 (by omega)
        by_cases hwg : s.wg = 0
        · exact ⟨.watch, _, rfl, step_complete (Step.watch s hp hw hcl hwg)⟩
        · have hlive : live s.workers ≠ 0 := by
            have := hr.inv.wg_eq
            omega
          have : ∃ wk ∈ s.workers, wk.pc ≠ .exited := by
            by_contra hall
            push_neg at hall
            apply hlive
            simp only [live, List.countP_eq_zero]
            intro wk hwk
            simp [hall wk hwk]
          obtain ⟨wk, hwk, hne⟩ := this
          obtain ⟨w, hw'⟩ := List.mem_iff_getElem?.1 hwk
          cases hpc : wk.pc with
          | exited => exact absurd hpc hne
          | idle =>
            cases htc : s.taskChan with
            | cons t rest =>
              exact ⟨.recv w, _, rfl, step_complete (Step.recvTask s w wk t rest hp hw' hpc htc)⟩
            | nil =>
              have hc : s.taskClosed = true := hr.inv.closed_iff.2 (by omega)
              refine ⟨.recv w, _, rfl, step_complete (Step.recvEnd s w wk hp hw' hpc htc hc ?_)⟩
              have := hr.inv.wg_eq
              omega
          | called t =>
            exact ⟨.enter w, _, rfl, step_complete (Step.enterBlock s w wk t hp hw' hpc)⟩
          | blocked t =>
            exact ⟨.timer w 1, _, rfl, step_complete (Step.timer s w wk t 1 hp hw' hpc)⟩
          | returned t o e =>
            refine ⟨.send w, _, rfl, step_complete (Step.send s w wk t o e hp hw' hpc hcl ?_)⟩
            have := length_owns_le hwk
            simp only [Worker.owns, hpc, List.length_singleton] at this
            rw [htk]
            omega

/-- From every state of the call some schedule of the program's own steps
reaches the `return`. -/
theorem Reach.completes {wp : WorkerPool} {ctx0 : Option CtxErr} {tasks : List Task}
    (n : Nat) : ∀ {s : State}, Reach wp ctx0 tasks s → s.fuel ≤ n →
    ∃ sched s', (∀ a ∈ sched, a.internal = true) ∧ run s sched = some s' ∧
      s'.returned.isSome = true := by
  induction n with
  | zero =>
    intro s hr hn
    cases hret : s.returned with
    | some p => exact ⟨[], s, by simp, rfl, by simp [hret]⟩
    | none =>
      obtain ⟨a, s', _, hs⟩ := hr.progress hret
      have := (step_sound hs).fuel_lt
      omega
  | succ n ih =>
    intro s hr hn
    cases hret : s.returned with
    | some p => exact ⟨[], s, by simp, rfl, by simp [hret]⟩
    | none =>
      obtain ⟨a, s', ha, hs⟩ := hr.progress hret
      have hlt := (step_sound hs).fuel_lt
      obtain ⟨sched, s'', hint, hrun, hdone⟩ := ih (hr.of_step hs) (by omega)
      refine ⟨a :: sched, s'', ?_, ?_, hdone⟩
      · intro b hb
        rcases List.mem_cons.1 hb with rfl | hb
        · exact ha
        · exact hint b hb
      · simp [run, hs, hrun]

theorem alwaysReturns (wp : WorkerPool) (ctx : Option CtxErr) (tasks : List Task) :
    AlwaysReturns wp ctx tasks := by
  intro sched s h
  have hr : Reach wp ctx tasks s := Reach.of_execute h
  refine ⟨?_, ?_⟩
  · have := run_length_le h
    omega
  · obtain ⟨more, s', hint, hrun, hdone⟩ := Reach.completes s.fuel hr le_rfl
    obtain ⟨res, hres⟩ := Option.isSome_iff_exists.1 hdone
    refine ⟨more, res, hint, ?_⟩
    unfold ProcessTasks execute at *
    rw [run_append, h]
    simp [hrun, hres]

/-! ## Runs in which no timer case runs -/

theorem cancelledOnly_step {e : CtxErr} {s s' : State} {a : Action}
    (hc : s.ctx = some e) (hl : CancelledOnly e s.log) (h : Step s a s')
    (ha : a.isTimer = false) : CancelledOnly e s'.log := by
  cases h with
  | recvTask w wk task rest hp hw hpc ht =>
    intro w' t o er hmem
    simp only [List.mem_append, List.mem_singleton] at hmem
    rcases hmem with hmem | hmem
    · exact hl w' t o er hmem
    · cases hmem
  | timer w wk task r hp hw hpc => cases ha
  | done w wk task e' hp hw hpc hc' =>
    intro w' t o er hmem
    simp only [finishCall, List.mem_append, List.mem_singleton] at hmem
    rcases hmem with hmem | hmem
    · exact hl w' t o er hmem
    · cases hmem
      rw [hc] at hc'
      cases hc'
      rfl
  | _ => exact hl

theorem cancelledOnly_run {wp : WorkerPool} {e : CtxErr} {tasks : List Task}
    {sched : List Action} {s s' : State} (hr : Reach wp (some e) tasks s)
    (hl : CancelledOnly e s.log) (h : run s sched = some s')
    (ha : ∀ a ∈ sched, a.isTimer = false) : CancelledOnly e s'.log := by
  induction sched generalizing s with
  | nil =>
    simp only [run, Option.some.injEq] at h
    subst h
    exact hl
  | cons a rest ih =>
    simp only [run] at h
    cases hstep : step s a with
    | none => rw [hstep] at h; cases h
    | some s1 =>
      rw [hstep] at h
      exact ih (hr.of_step hstep)
        (cancelledOnly_step (hr.logged.ctx_fired e rfl) hl (step_sound hstep)
          (ha a (List.mem_cons_self _ _)))
        h (fun b hb => ha b (List.mem_cons_of_mem _ hb))

/-! ## The example runs -/

set_option maxRecDepth 100000 in
theorem demo_returns :
    ProcessTasks (NewWorkerPool 2) none demoTasks demoSchedule = some (demoOut, none) := by
  decide

set_option maxRecDepth 100000 in
theorem solo_returns :
    ProcessTasks (NewWorkerPool 1) none demoTasks soloSchedule = some (soloOut, none) := by
  decide

set_option maxRecDepth 100000 in
theorem fired_returns :
    ProcessTasks (NewWorkerPool 2) (some .Canceled) demoTasks firedSchedule
      = some (firedOut, none) := by
  decide

set_option maxRecDepth 100000 in
theorem race_returns :
    ProcessTasks (NewWorkerPool 1) (some .Canceled) raceTasks raceSchedule
      = some (raceOut, none) := by
  decide

set_option maxRecDepth 100000 in
theorem mixed_returns :
    ProcessTasks (NewWorkerPool 2) none demoTasks mixedSchedule = some (mixedOut, none) := by
  decide

set_option maxRecDepth 100000 in
theorem idle_returns :
    ProcessTasks (NewWorkerPool 0) none demoTasks idleSchedule = some ([], none) := by
  decide

set_option maxRecDepth 100000 in
theorem solo_agrees :
    ∀ ev ∈ trace (NewWorkerPool 1) none demoTasks soloSchedule, ev.agrees succeed := by
  decide

set_option maxRecDepth 100000 in
theorem demo_agrees :
    ∀ ev ∈ trace (NewWorkerPool 2) none demoTasks demoSchedule, ev.agrees succeed := by
  decide

/-! ## Properties of `ProcessTasks` -/

/-- C1: with at least one worker, for every batch and every interleaving, the
call returns, and the task identities of the returned results are exactly the
identities of the input tasks, each as often as it was submitted. -/
theorem C1_results_match_tasks (wp : WorkerPool) (ctx : Option CtxErr) (tasks : List Task)
    (hc : 1 ≤ wp.Count) :
    AlwaysReturns wp ctx tasks ∧
    ∀ sched out err, ProcessTasks wp ctx tasks sched = some (out, err) →
      (out.map Result.TaskID).Perm (tasks.map Task.ID) := by
  refine ⟨alwaysReturns wp ctx tasks, ?_⟩
  intro sched out err h
  obtain ⟨s, _, hm, hr⟩ := returned_reach h
  exact hr.results_perm hm hc

/-- C1 at two workers and `demoTasks`. -/
theorem C1_witness :
    ProcessTasks (NewWorkerPool 2) none demoTasks demoSchedule = some (demoOut, none) ∧
    (demoOut.map Result.TaskID).Perm (demoTasks.map Task.ID) :=
  ⟨demo_returns,
    (C1_results_match_tasks (NewWorkerPool 2) none demoTasks (by decide)).2
      demoSchedule demoOut none demo_returns⟩

/-- C2: with at least one worker, for every batch in any order and every
interleaving, the call returns and the returned sequence is ascending in
`TaskID`. -/
theorem C2_results_sorted_by_TaskID (wp : WorkerPool) (ctx : Option CtxErr) (tasks : List Task)
    (hc : 1 ≤ wp.Count) :
    AlwaysReturns wp ctx tasks ∧
    ∀ sched out err, ProcessTasks wp ctx tasks sched = some (out, err) →
      ∀ (i j : Nat) (hi : i < out.length) (hj : j < out.length), i < j →
        (out[i]).TaskID ≤ (out[j]).TaskID := by
  have _ := hc
  refine ⟨alwaysReturns wp ctx tasks, ?_⟩
  intro sched out err h i j hi hj hij
  obtain ⟨s, _, hm, hr⟩ := returned_reach h
  exact sorted_index (hr.sorted hm) i j hi hj hij

/-- C2 at two workers and `demoTasks`, whose identities arrive as 1, 0. -/
theorem C2_witness :
    ProcessTasks (NewWorkerPool 2) none demoTasks demoSchedule = some (demoOut, none) ∧
    (demoOut.get ⟨0, by decide⟩).TaskID ≤ (demoOut.get ⟨1, by decide⟩).TaskID :=
  ⟨demo_returns,
    (C2_results_sorted_by_TaskID (NewWorkerPool 2) none demoTasks (by decide)).2
      demoSchedule demoOut none demo_returns 0 1 (by decide) (by decide) (by decide)⟩

/-- C3: with at least one worker, for every batch, the empty one included,
the call returns, and it returns as many results as there are tasks. -/
theorem C3_one_result_per_task (wp : WorkerPool) (ctx : Option CtxErr) (tasks : List Task)
    (hc : 1 ≤ wp.Count) :
    AlwaysReturns wp ctx tasks ∧
    ∀ sched out err, ProcessTasks wp ctx tasks sched = some (out, err) →
      out.length = tasks.length := by
  refine ⟨alwaysReturns wp ctx tasks, ?_⟩
  intro sched out err h
  obtain ⟨s, _, hm, hr⟩ := returned_reach h
  simpa using (hr.results_perm hm hc).length_eq

/-- C3 at one worker and `demoTasks`. -/
theorem C3_witness :
    ProcessTasks (NewWorkerPool 1) none demoTasks soloSchedule = some (soloOut, none) ∧
    soloOut.length = demoTasks.length :=
  ⟨solo_returns,
    (C3_one_result_per_task (NewWorkerPool 1) none demoTasks (by decide)).2
      soloSchedule soloOut none solo_returns⟩

/-- C4 (the code does otherwise): on one worker and the batch of the tasks 1
and 0, in this order, every run returns the result of task 0 first and the
result of task 1 second, the reverse of the input order. -/
theorem C4_order_is_by_TaskID_not_by_input :
    AlwaysReturns (NewWorkerPool 1) none demoTasks ∧
    demoTasks.map Task.ID = [1, 0] ∧
    ∀ sched out err, ProcessTasks (NewWorkerPool 1) none demoTasks sched = some (out, err) →
      out.map Result.TaskID = [0, 1] := by
  refine ⟨alwaysReturns _ _ _, rfl, ?_⟩
  intro sched out err h
  obtain ⟨s, _, hm, hr⟩ := returned_reach h
  have hp := hr.results_perm hm (by simp [NewWorkerPool])
  have hp' : (out.map Result.TaskID).Perm [0, 1] :=
    hp.trans (by simp only [demoTasks, List.map]; exact List.Perm.swap 0 1 [])
  exact ids_eq_of_sorted_perm hp' (hr.sorted hm) (by simp [List.Sorted])

/-- C5: for a batch with pairwise distinct identities and a pool of `K`
workers, `1 ≤ K ≤ M`: when in a run of the pool of `K` workers and in a run of
a pool of one worker every call of `ProcessTask` returned what the function `f`
of the task says, both runs return the same sequence of
`(TaskID, Output, Error)`. -/
theorem C5_outcomes_independent_of_worker_count (f : Task → String × Option String)
    (tasks : List Task) (K : Int) (ctx₁ ctxK : Option CtxErr) (sched₁ schedK : List Action)
    (out₁ outK : List Result) (err₁ errK : Option String)
    (hnd : (tasks.map Task.ID).Nodup) (h1 : 1 ≤ K) (hK : K ≤ tasks.length)
    (hrun₁ : ProcessTasks (NewWorkerPool 1) ctx₁ tasks sched₁ = some (out₁, err₁))
    (hdet₁ : ∀ ev ∈ trace (NewWorkerPool 1) ctx₁ tasks sched₁, ev.agrees f)
    (hrunK : ProcessTasks (NewWorkerPool K) ctxK tasks schedK = some (outK, errK))
    (hdetK : ∀ ev ∈ trace (NewWorkerPool K) ctxK tasks schedK, ev.agrees f) :
    out₁.map Result.outcome = outK.map Result.outcome := by
  have _ := hK
  obtain ⟨s₁, he₁, hm₁, hr₁⟩ := returned_reach hrun₁
  obtain ⟨sK, heK, hmK, hrK⟩ := returned_reach hrunK
  rw [trace_eq he₁] at hdet₁
  rw [trace_eq heK] at hdetK
  refine outcome_unique f hnd (hr₁.results_perm hm₁ (by simp [NewWorkerPool]))
    (hrK.results_perm hmK (by simpa [NewWorkerPool] using h1)) (hr₁.sorted hm₁) (hrK.sorted hmK) ?_ ?_
  · intro r hr
    obtain ⟨t, ht, hid, _, hproc, _⟩ := hr₁.origin hm₁ hr
    exact ⟨t, ht, hid, hdet₁ _ hproc⟩
  · intro r hr
    obtain ⟨t, ht, hid, _, hproc, _⟩ := hrK.origin hmK hr
    exact ⟨t, ht, hid, hdetK _ hproc⟩

/-- C5 at `demoTasks`, two workers against one, the processor that always succeeds. -/
theorem C5_witness :
    (demoTasks.map Task.ID).Nodup ∧
    ProcessTasks (NewWorkerPool 1) none demoTasks soloSchedule = some (soloOut, none) ∧
    ProcessTasks (NewWorkerPool 2) none demoTasks demoSchedule = some (demoOut, none) ∧
    soloOut.map Result.outcome = demoOut.map Result.outcome :=
  ⟨by decide, solo_returns, demo_returns,
    C5_outcomes_independent_of_worker_count succeed demoTasks 2 none none
      soloSchedule demoSchedule soloOut demoOut none none (by decide) (by decide) (by decide)
      solo_returns solo_agrees demo_returns demo_agrees⟩

/-- C6, as stated, fails: one worker, the task 5 and a context cancelled before
the call; the timer case of the `select` runs, and the call returns a result
with a nil error and a non-empty output. -/
theorem C6_timer_may_win_the_select :
    ¬ (∀ sched out err,
        ProcessTasks (NewWorkerPool 1) (some .Canceled) raceTasks sched = some (out, err) →
        ∀ r ∈ out, r.Error ≠ none ∧ r.Output = "") := by
  intro h
  exact (h raceSchedule raceOut none race_returns ⟨5, "processed-x-result-10", none, 0⟩
    (List.mem_singleton.2 rfl)).1 rfl

/-- C6, amended: with at least one worker and a context that has fired before
the call, every run returns; every returned result is either the failure of
the cancellation path (empty output, an error that quotes `ctx.Err()`) or what
the timer case returns for its task; in a run in which no timer case runs,
every returned result is the failure of the cancellation path; and every task
was received by a worker and has its result. -/
theorem C6_fired_context_fails_unless_timer_runs (wp : WorkerPool) (e : CtxErr)
    (tasks : List Task) (hc : 1 ≤ wp.Count) :
    AlwaysReturns wp (some e) tasks ∧
    ∀ sched out err, ProcessTasks wp (some e) tasks sched = some (out, err) →
      (∀ r ∈ out,
        (r.Output = "" ∧
          r.Error = some ("for some reason, task " ++ toString r.TaskID
            ++ "  was canceled: " ++ e.Error)) ∨
        ∃ t ∈ tasks, ∃ rnd, r.TaskID = t.ID ∧
          ProcessTask (.timer rnd) t = (r.Output, r.Error)) ∧
      ((∀ a ∈ sched, a.isTimer = false) →
        ∀ r ∈ out, r.Output = "" ∧
          r.Error = some ("for some reason, task " ++ toString r.TaskID
            ++ "  was canceled: " ++ e.Error)) ∧
      (out.map Result.TaskID).Perm (tasks.map Task.ID) ∧
      (receivedTasks (trace wp (some e) tasks sched)).Perm tasks := by
  refine ⟨alwaysReturns _ _ _, ?_⟩
  intro sched out err h
  obtain ⟨s, he, hm, hr⟩ := returned_reach h
  refine ⟨?_, ?_, hr.results_perm hm hc, ?_⟩
  · intro r hmem
    obtain ⟨t, ht, hid, _, _, _, _, _, hctx⟩ := hr.origin hm hmem
    rcases hctx e rfl with hdone | ⟨rnd, htimer⟩
    · left
      simp only [ProcessTask, Prod.mk.injEq] at hdone
      rw [hid]
      exact ⟨hdone.1.symm, hdone.2.symm⟩
    · exact Or.inr ⟨t, ht, rnd, hid, htimer⟩
  · intro hnt r hmem
    obtain ⟨t, _, hid, _, hproc, _⟩ := hr.origin hm hmem
    have hall : CancelledOnly e s.log :=
      cancelledOnly_run (reach_init wp (some e) tasks)
        (by intro w t o er hmem'; cases hmem') he hnt
    have hdone := hall _ _ _ _ hproc
    simp only [ProcessTask, Prod.mk.injEq] at hdone
    rw [hid]
    exact ⟨hdone.1.symm, hdone.2.symm⟩
  · rw [trace_eq he, List.perm_iff_count]
    intro t
    have := hr.logged.recv_count t
    obtain ⟨htc, _, _⟩ := hr.drained hm hc
    simpa [hm, MainPc.unsent, htc] using this

set_option maxRecDepth 100000 in
/-- C6, amended, at two workers, `demoTasks` and a context cancelled beforehand,
on a run without a timer case. -/
theorem C6_witness :
    ProcessTasks (NewWorkerPool 2) (some .Canceled) demoTasks firedSchedule
      = some (firedOut, none) ∧
    (∀ a ∈ firedSchedule, a.isTimer = false) ∧
    (∀ r ∈ firedOut, r.Output = "" ∧
      r.Error = some ("for some reason, task " ++ toString r.TaskID
        ++ "  was canceled: " ++ CtxErr.Canceled.Error)) :=
  ⟨fired_returns, by decide,
    ((C6_fired_context_fails_unless_timer_runs (NewWorkerPool 2) .Canceled demoTasks
      (by decide)).2 firedSchedule firedOut none fired_returns).2.1 (by decide)⟩

/-- C7: each of the three return paths of `ProcessTask` gives either a nil
error and a non-empty output, or a non-nil error and an empty output; every
run returns, and every returned result is of one of these two kinds. -/
theorem C7_output_or_error_never_both (wp : WorkerPool) (ctx : Option CtxErr)
    (tasks : List Task) :
    (∀ sel task,
      ((ProcessTask sel task).2 = none ∧ (ProcessTask sel task).1 ≠ "") ∨
      ((ProcessTask sel task).2 ≠ none ∧ (ProcessTask sel task).1 = "")) ∧
    AlwaysReturns wp ctx tasks ∧
    ∀ sched out err, ProcessTasks wp ctx tasks sched = some (out, err) →
      ∀ r ∈ out, (r.Error = none ∧ r.Output ≠ "") ∨ (r.Error ≠ none ∧ r.Output = "") := by
  refine ⟨ProcessTask_one_of, alwaysReturns _ _ _, ?_⟩
  intro sched out err h r hmem
  obtain ⟨s, _, hm, hr⟩ := returned_reach h
  obtain ⟨t, _, _, _, _, _, _, ⟨sel, hsel⟩, _⟩ := hr.origin hm hmem
  have := ProcessTask_one_of sel t
  rw [hsel] at this
  exact this

/-- C7 at a run with one processing failure and one cancellation. -/
theorem C7_witness :
    ProcessTasks (NewWorkerPool 2) none demoTasks mixedSchedule = some (mixedOut, none) ∧
    (∀ r ∈ mixedOut, (r.Error = none ∧ r.Output ≠ "") ∨ (r.Error ≠ none ∧ r.Output = "")) :=
  ⟨mixed_returns,
    (C7_output_or_error_never_both (NewWorkerPool 2) none demoTasks).2.2
      mixedSchedule mixedOut none mixed_returns⟩

/-- C8: for every pool, batch and context, every run returns, and the error
it returns next to the results is nil. -/
theorem C8_batch_error_is_nil (wp : WorkerPool) (ctx : Option CtxErr) (tasks : List Task) :
    AlwaysReturns wp ctx tasks ∧
    ∀ sched out err, ProcessTasks wp ctx tasks sched = some (out, err) → err = none := by
  refine ⟨alwaysReturns _ _ _, ?_⟩
  intro sched out err h
  obtain ⟨s, _, hm, hr⟩ := returned_reach h
  exact (hr.inv.ret_inv out err hm).2.2.2

set_option maxRecDepth 100000 in
/-- C8 at a run in which both tasks fail. -/
theorem C8_witness :
    ∃ err, ProcessTasks (NewWorkerPool 2) none demoTasks mixedSchedule = some (mixedOut, err) ∧
      err = none ∧ ∀ r ∈ mixedOut, r.Error ≠ none :=
  ⟨none, mixed_returns,
    (C8_batch_error_is_nil (NewWorkerPool 2) none demoTasks).2
      mixedSchedule mixedOut none mixed_returns,
    by decide⟩

/-- C9: with at least one worker, every run returns, and every returned result
names a worker of the pool, `0 ≤ WorkerID < Count`, which received a task of
the batch with the result's `TaskID` and whose call of `ProcessTask` on that
task returned the result's output and error. -/
theorem C9_result_names_its_worker (wp : WorkerPool) (ctx : Option CtxErr) (tasks : List Task)
    (hc : 1 ≤ wp.Count) :
    AlwaysReturns wp ctx tasks ∧
    ∀ sched out err, ProcessTasks wp ctx tasks sched = some (out, err) →
      ∀ r ∈ out, 0 ≤ r.WorkerID ∧ r.WorkerID < wp.Count ∧
        ∃ t ∈ tasks, r.TaskID = t.ID ∧
          Event.received r.WorkerID t ∈ trace wp ctx tasks sched ∧
          Event.processed r.WorkerID t r.Output r.Error ∈ trace wp ctx tasks sched := by
  refine ⟨alwaysReturns _ _ _, ?_⟩
  intro sched out err h r hmem
  obtain ⟨s, he, hm, hr⟩ := returned_reach h
  obtain ⟨t, ht, hid, hrecv, hproc, h0, hlt, _, _⟩ := hr.origin hm hmem
  rw [trace_eq he]
  refine ⟨h0, ?_, t, ht, hid, hrecv, hproc⟩
  have := hr.inv.workers_le
  omega

/-- C9 at two workers and `demoTasks`. -/
theorem C9_witness :
    ProcessTasks (NewWorkerPool 2) none demoTasks demoSchedule = some (demoOut, none) ∧
    (∀ r ∈ demoOut, 0 ≤ r.WorkerID ∧ r.WorkerID < 2) :=
  ⟨demo_returns, fun r hr =>
    let h := (C9_result_names_its_worker (NewWorkerPool 2) none demoTasks (by decide)).2
      demoSchedule demoOut none demo_returns r hr
    ⟨h.1, h.2.1⟩⟩

/-- C10: with `Count ≤ 0`, for every batch, every run returns; no worker is
ever launched and no task is ever received or processed; the results returned
are empty and the error is nil. -/
theorem C10_no_worker_returns_empty (wp : WorkerPool) (ctx : Option CtxErr) (tasks : List Task)
    (hc : wp.Count ≤ 0) :
    AlwaysReturns wp ctx tasks ∧
    (∀ sched s, execute wp ctx tasks sched = some s → s.workers = [] ∧ s.log = []) ∧
    ∀ sched out err, ProcessTasks wp ctx tasks sched = some (out, err) →
      out = [] ∧ err = none := by
  have hlog : ∀ s, Reach wp ctx tasks s → s.workers = [] ∧ s.log = [] := by
    intro s hr
    have hw : s.workers = [] := by
      have := hr.inv.workers_le
      apply List.eq_nil_of_length_eq_zero
      omega
    refine ⟨hw, List.eq_nil_iff_forall_not_mem.2 ?_⟩
    have hrecv : ∀ (w : Int) (t : Task), Event.received w t ∉ s.log := by
      intro w t hmem
      have := hr.logged.received_ok w t hmem
      rw [hw] at this
      simp only [List.length_nil, Nat.cast_zero] at this
      omega
    intro ev hmem
    cases ev with
    | received w t => exact hrecv w t hmem
    | processed w t o e => exact hrecv w t (hr.logged.processed_ok w t o e hmem).1
  refine ⟨alwaysReturns _ _ _, fun sched s h => hlog s (Reach.of_execute h), ?_⟩
  intro sched out err h
  obtain ⟨s, _, hm, hr⟩ := returned_reach h
  have hret := hr.inv.ret_inv out err hm
  refine ⟨?_, hret.2.2.2⟩
  have hres : s.results = [] := by
    apply List.eq_nil_iff_forall_not_mem.2
    intro r hmem
    obtain ⟨t, hproc, _⟩ := hr.logged.chan_ok r (Or.inr hmem)
    rw [(hlog s hr).2] at hproc
    cases hproc
  have := hret.2.2.1.1
  rw [hres] at this
  exact this.eq_nil

/-- C10 at a pool of no workers and the two tasks of `demoTasks`. -/
theorem C10_witness :
    ProcessTasks (NewWorkerPool 0) none demoTasks idleSchedule = some ([], none) ∧
    AlwaysReturns (NewWorkerPool 0) none demoTasks :=
  ⟨idle_returns, (C10_no_worker_returns_empty (NewWorkerPool 0) none demoTasks (by decide)).1⟩

end WorkerPoolModel
